import Mathlib

/-
  Verification of the MemPool chunked allocator specification against the
  repository sources.

  The repository provides src/include/MemPool.h (constants, class
  declarations, the MEMPROXY_CLASS macros) and two StoreMeta headers that
  instantiate MEMPROXY_CLASS_INLINE.  The allocator engine (MemPool.cc) is
  not part of the sources, so the operational behaviour of pools is
  modelled from the specification (spec.md sections 3, 4 and 8); every
  such definition is marked "Modelled from the spec".  Constants and
  declared field types are taken directly from the header.

  Machine addresses are abstracted: a slot pointer is the pair
  (chunk id, slot index); chunk ids are handed out by a per-pool counter.
  Slot contents are byte lists; fresh slabs are filled with a junk byte to
  model uninitialized memory.
-/

namespace MemPool

/-! ## Constants, from src/include/MemPool.h lines 46-63 -/

/-- `#define MB ((size_t)1024*1024)` (MemPool.h:46). -/
def MB : Nat := 1024 * 1024

/-- `#define mem_unlimited_size 2 * 1024 * MB` (MemPool.h:48). -/
def mem_unlimited_size : Nat := 2 * 1024 * MB

/-- `#define MEM_PAGE_SIZE 4096` (MemPool.h:55). -/
def MEM_PAGE_SIZE : Nat := 4096

/-- `#define MEM_CHUNK_SIZE 4096 * 4` (MemPool.h:57). -/
def MEM_CHUNK_SIZE : Nat := 4096 * 4

/-- `#define MEM_CHUNK_MAX_SIZE 256 * 1024` (MemPool.h:59). -/
def MEM_CHUNK_MAX_SIZE : Nat := 256 * 1024

/-- `#define MEM_MIN_FREE 32` (MemPool.h:61). -/
def MEM_MIN_FREE : Nat := 32

/-- `#define MEM_MAX_FREE 65535` (MemPool.h:63), ushort max items per chunk. -/
def MEM_MAX_FREE : Nat := 65535

/-- Largest value of the C `int` type on the 32- and 64-bit builds the spec
    addresses (ILP32/LP64: `int` is 32 bits).  `MemPools::mem_idle_limit`
    is declared `int` in MemPool.h:174. -/
def cIntMax : Int := 2 ^ 31 - 1

/-- `sizeof(void*)` on the 64-bit build the spec's scenario S1 fixes. -/
def pointerSize : Nat := 8

/-- Round `n` up to the next multiple of `k`. -/
def roundUp (n k : Nat) : Nat := ((n + k - 1) / k) * k

/-- Modelled from the spec: `MemAllocator::RoundedSize` (declared at
    MemPool.h:231, body absent from src/); spec section 3:
    "object_size = max(pointer_size, round_up(requested, pointer_size))". -/
def RoundedSize (minSize : Nat) : Nat := max pointerSize (roundUp minSize pointerSize)

/-- Modelled from the spec: chunk capacity selection (engine absent from
    src/); spec section 3: "capacity is clamp(target / object_size,
    MIN_FREE=32, MAX_FREE=65535)". -/
def chunkCapacity (targetBytes objSize : Nat) : Nat :=
  min MEM_MAX_FREE (max MEM_MIN_FREE (targetBytes / objSize))

/-! ## Meters

`memMeter.h` is not part of src/; the meter is modelled from spec
sections 3 and 4.1: level, high water and a monotonic count, with
`inc`/`dec` the only mutators. -/

/-- Modelled from the spec: one scalar meter (memMeter.h absent). -/
structure MemMeter where
  level : Nat
  high_water : Nat
  count : Nat
deriving DecidableEq

/-- Spec 4.1: `inc(n)` sets level += n; count += n; high_water = max. -/
def MemMeter.inc (m : MemMeter) (n : Nat) : MemMeter :=
  { level := m.level + n, high_water := max m.high_water (m.level + n),
    count := m.count + n }

/-- Spec 4.1: `dec(n)` sets level -= n. -/
def MemMeter.dec (m : MemMeter) (n : Nat) : MemMeter :=
  { m with level := m.level - n }

def MemMeter.zero : MemMeter := { level := 0, high_water := 0, count := 0 }

/-- Cumulative counter pair, from class mgb_t (MemPool.h:84-90).  The
    source fields are `double`; history counters are modelled as `Nat`. -/
structure mgb_t where
  count : Nat
  bytes : Nat
deriving DecidableEq

def mgb_t.zero : mgb_t := { count := 0, bytes := 0 }

/-- Per-pool meter set, from class MemPoolMeter (MemPool.h:96-115). -/
structure MemPoolMeter where
  alloc : MemMeter
  inuse : MemMeter
  idle : MemMeter
  gb_allocated : mgb_t
  gb_oallocated : mgb_t
  gb_saved : mgb_t
  gb_freed : mgb_t
deriving DecidableEq

def MemPoolMeter.init : MemPoolMeter :=
  { alloc := MemMeter.zero, inuse := MemMeter.zero, idle := MemMeter.zero,
    gb_allocated := mgb_t.zero, gb_oallocated := mgb_t.zero,
    gb_saved := mgb_t.zero, gb_freed := mgb_t.zero }

/-- Hand a slot out: idle -> inuse movement of `n` bytes (spec 4.3). -/
def MemPoolMeter.takeIdle (m : MemPoolMeter) (n : Nat) : MemPoolMeter :=
  { m with idle := m.idle.dec n, inuse := m.inuse.inc n }

/-- Take a slot back: inuse -> idle movement of `n` bytes (spec 4.3). -/
def MemPoolMeter.putIdle (m : MemPoolMeter) (n : Nat) : MemPoolMeter :=
  { m with inuse := m.inuse.dec n, idle := m.idle.inc n }

/-- A new chunk's slots are owned and idle: alloc and idle grow by the
    chunk's byte size (spec 3: alloc = inuse + idle; spec 4.5 phase C is
    the inverse). -/
def MemPoolMeter.addChunk (m : MemPoolMeter) (n : Nat) : MemPoolMeter :=
  { m with alloc := m.alloc.inc n, idle := m.idle.inc n }

/-- Releasing a chunk: spec 4.5 phase C "updates alloc and idle meters
    downward by chunk capacity x object_size". -/
def MemPoolMeter.removeChunk (m : MemPoolMeter) (n : Nat) : MemPoolMeter :=
  { m with alloc := m.alloc.dec n, idle := m.idle.dec n }

/-! ## Chunks and pool state -/

/-- An abstract slot pointer: owning chunk id and slot index within it. -/
structure Ptr where
  chunkId : Nat
  slotIdx : Nat
deriving DecidableEq

/-- Junk byte filling uninitialized slab memory in the model. -/
def junkByte : Nat := 170

/-- Modelled from the spec: a chunk (spec section 3 data model; the chunk
    engine is absent from src/): capacity slots, an intra-chunk free list
    of slot indices, an aggregate in-use count, a last-reference stamp and
    the byte contents of each slot. -/
structure MemChunk where
  cid : Nat
  capacity : Nat
  freeList : List Nat
  inUse : Nat
  lastRef : Nat
  mem : List (List Nat)
deriving DecidableEq

/-- Spec 4.2: construction chains all slots into the intra-chunk free
    list; slab contents start uninitialized (junk). -/
def newChunk (cid cap objSize now : Nat) : MemChunk :=
  { cid := cid, capacity := cap, freeList := List.range cap, inUse := 0,
    lastRef := now, mem := List.replicate cap (List.replicate objSize junkByte) }

/-- Modelled from the spec: the state of one chunked pool (engine absent
    from src/): rounded object size, capacity for future chunks, the chunk
    set, the pool-level LIFO cache of freed slots, meters and the call
    counters declared in MemPool.h:351-354. -/
structure PoolState where
  label : String
  obj_size : Nat
  chunk_capacity : Nat
  chunks : List MemChunk
  cache : List Ptr
  meter : MemPoolMeter
  alloc_calls : Nat
  free_calls : Nat
  saved_calls : Nat
  doZeroOnPush : Bool
  nextCid : Nat
deriving DecidableEq

/-- Pop a slot from the first chunk that has a free slot (spec 4.3 step 2:
    chunks are kept sorted so the first partially-full chunk is preferred);
    stamps the chunk's last-reference time. -/
def popFirstFree (now : Nat) : List MemChunk → Option (Ptr × List MemChunk)
  | [] => none
  | c :: cs =>
    match c.freeList with
    | i :: is =>
      some (⟨c.cid, i⟩,
        { c with freeList := is, inUse := c.inUse + 1, lastRef := now } :: cs)
    | [] =>
      match popFirstFree now cs with
      | none => none
      | some (p, cs') => some (p, c :: cs')

/-- Overwrite the contents of the slot `p` with `v`. -/
def setSlot (chunks : List MemChunk) (p : Ptr) (v : List Nat) : List MemChunk :=
  chunks.map fun c =>
    if c.cid = p.chunkId then { c with mem := c.mem.set p.slotIdx v } else c

/-- Spec 4.3: "optionally zero" the slot being handed out, when the pool's
    zero flag (MemAllocator::doZeroOnPush, MemPool.h:234) is set. -/
def maybeZero (s : PoolState) (p : Ptr) : PoolState :=
  if s.doZeroOnPush then
    { s with chunks := setSlot s.chunks p (List.replicate s.obj_size 0) }
  else s

/-- Modelled from the spec: the alloc algorithm of spec 4.3 (the bodies of
    MemImplementingAllocator::alloc and MemPoolChunked are absent from
    src/).  Step 1: serve from the pool cache, incrementing saved_calls.
    Steps 2-4: pop a slot from the first chunk with a free slot, creating
    a chunk when none has one, incrementing alloc_calls.  Chunk creation
    moves the chunk's bytes into the alloc and idle meters (spec 3 and
    4.5); handing the slot out moves object_size from idle to inuse. -/
def PoolState.alloc (s : PoolState) (now : Nat) : Ptr × PoolState :=
  match s.cache with
  | p :: rest =>
    (p, maybeZero { s with
      cache := rest,
      saved_calls := s.saved_calls + 1,
      meter := s.meter.takeIdle s.obj_size } p)
  | [] =>
    match popFirstFree now s.chunks with
    | some (p, cs) =>
      (p, maybeZero { s with
        chunks := cs,
        alloc_calls := s.alloc_calls + 1,
        meter := s.meter.takeIdle s.obj_size } p)
    | none =>
      match popFirstFree now [newChunk s.nextCid s.chunk_capacity s.obj_size now] with
      | some (p, cs') =>
        (p, maybeZero { s with
          chunks := s.chunks ++ cs',
          nextCid := s.nextCid + 1,
          alloc_calls := s.alloc_calls + 1,
          meter := (s.meter.addChunk (s.chunk_capacity * s.obj_size)).takeIdle
            s.obj_size } p)
      | none => (⟨s.nextCid, 0⟩, s)

/-- Modelled from the spec: the free algorithm of spec 4.3: push onto the
    pool cache, increment free_calls, move object_size from inuse to idle;
    the owning chunk is not touched (reconciliation is deferred to clean). -/
def PoolState.free (s : PoolState) (p : Ptr) : PoolState :=
  { s with
    cache := p :: s.cache,
    free_calls := s.free_calls + 1,
    meter := s.meter.putIdle s.obj_size }

/-- Return one cached slot to its owning chunk (spec 4.5 phase A). -/
def drainOne (chunks : List MemChunk) (p : Ptr) : List MemChunk :=
  chunks.map fun c =>
    if c.cid = p.chunkId then
      { c with freeList := p.slotIdx :: c.freeList, inUse := c.inUse - 1 }
    else c

/-- Spec 4.5 phase A: drain the whole pool cache into the chunks. -/
def drainCache (chunks : List MemChunk) : List Ptr → List MemChunk
  | [] => chunks
  | p :: ps => drainCache (drainOne chunks p) ps

/-- Spec 4.3/4.5 chunk ordering key: lexicographically
    (is_empty, -in_use_count, address); addresses abstracted to cids. -/
def chunkLE (c d : MemChunk) : Bool :=
  if (c.inUse == 0) != (d.inUse == 0) then d.inUse == 0
  else if c.inUse != d.inUse then decide (d.inUse < c.inUse)
  else decide (c.cid ≤ d.cid)

def insertChunk (c : MemChunk) : List MemChunk → List MemChunk
  | [] => [c]
  | d :: ds => if chunkLE c d then c :: d :: ds else d :: insertChunk c ds

/-- Spec 4.5 phase B: re-sort the chunks under the ordering key. -/
def sortChunks : List MemChunk → List MemChunk
  | [] => []
  | c :: cs => insertChunk c (sortChunks cs)

/-- Spec 4.5 phase C: walk the chunks, releasing each fully-empty chunk
    when the idle budget is exceeded or the chunk is old enough; each
    release moves the meters down by capacity x object_size. -/
def reclaim (objSize idleLimit now maxage : Nat) :
    List MemChunk → MemPoolMeter → List MemChunk × MemPoolMeter
  | [], m => ([], m)
  | c :: cs, m =>
    if c.inUse = 0 ∧ (idleLimit < m.idle.level ∨ maxage ≤ now - c.lastRef) then
      reclaim objSize idleLimit now maxage cs (m.removeChunk (c.capacity * objSize))
    else
      let r := reclaim objSize idleLimit now maxage cs m
      (c :: r.1, r.2)

/-- Modelled from the spec: clean(maxage) (spec 4.5; body absent from
    src/).  The registry's idle limit and the current time are passed in
    explicitly; the registry's total idle bytes are approximated by this
    pool's idle meter. -/
def PoolState.clean (s : PoolState) (idleLimit now maxage : Nat) : PoolState :=
  let cs1 := drainCache s.chunks s.cache
  let cs2 := sortChunks cs1
  let r := reclaim s.obj_size idleLimit now maxage cs2 s.meter
  { s with chunks := r.1, cache := [], meter := r.2 }

/-- Statistics record, from class MemPoolStats (MemPool.h:358-378); the
    `pool` and `meter` back-pointers are omitted from the model. -/
structure MemPoolStats where
  label : String
  obj_size : Nat
  chunk_capacity : Nat
  chunk_size : Nat
  chunks_alloc : Nat
  chunks_inuse : Nat
  chunks_partial : Nat
  chunks_free : Nat
  items_alloc : Nat
  items_inuse : Nat
  items_idle : Nat
  overhead : Nat
deriving DecidableEq

/-- Modelled from the spec: getStats (declared MemPool.h:195; spec 4.3:
    "snapshot of current counts; idempotent").  Fills the statistics
    record, returns the number of objects in use and the (unchanged) pool
    state; `overhead` bookkeeping is not specified and reported as 0. -/
def PoolState.getStats (s : PoolState) : MemPoolStats × Nat × PoolState :=
  ({ label := s.label, obj_size := s.obj_size,
     chunk_capacity := s.chunk_capacity,
     chunk_size := s.chunk_capacity * s.obj_size,
     chunks_alloc := s.chunks.length,
     chunks_inuse := (s.chunks.filter fun c => c.capacity ≤ c.inUse).length,
     chunks_partial :=
       (s.chunks.filter fun c => 0 < c.inUse ∧ c.inUse < c.capacity).length,
     chunks_free := (s.chunks.filter fun c => c.inUse == 0).length,
     items_alloc := s.meter.alloc.level / s.obj_size,
     items_inuse := s.meter.inuse.level / s.obj_size,
     items_idle := s.meter.idle.level / s.obj_size,
     overhead := 0 },
   s.meter.inuse.level / s.obj_size, s)

/-- Modelled from the spec: setChunkSize (declared MemPool.h:225; spec
    4.3: "recomputes chunk_capacity for future chunks only", target capped
    at 256 KiB per spec section 3). -/
def PoolState.setChunkSize (s : PoolState) (chunksize : Nat) : PoolState :=
  { s with chunk_capacity :=
      chunkCapacity (min chunksize MEM_CHUNK_MAX_SIZE) s.obj_size }

/-- Modelled from the spec: flushMeters (declared MemPool.h:327; spec 4.1:
    "folds any deltas into rate-tracking sub-meters (allocated/freed/saved
    histories)").  The call counters are folded into the gb histories and
    reset; levels are untouched. -/
def PoolState.flushMeters (s : PoolState) : PoolState :=
  { s with
    meter := { s.meter with
      gb_allocated := {
        count := s.meter.gb_allocated.count + s.alloc_calls,
        bytes := s.meter.gb_allocated.bytes + s.alloc_calls * s.obj_size },
      gb_saved := {
        count := s.meter.gb_saved.count + s.saved_calls,
        bytes := s.meter.gb_saved.bytes + s.saved_calls * s.obj_size },
      gb_freed := {
        count := s.meter.gb_freed.count + s.free_calls,
        bytes := s.meter.gb_freed.bytes + s.free_calls * s.obj_size } },
    alloc_calls := 0, free_calls := 0, saved_calls := 0 }

/-- The pool state MemPools::create hands back on success. -/
def freshPool (label : String) (req : Nat) : PoolState :=
  { label := label, obj_size := RoundedSize req,
    chunk_capacity := chunkCapacity MEM_CHUNK_SIZE (RoundedSize req),
    chunks := [], cache := [], meter := MemPoolMeter.init,
    alloc_calls := 0, free_calls := 0, saved_calls := 0,
    doZeroOnPush := true, nextCid := 0 }

/-- Modelled from the spec: MemPools::create (declared MemPool.h:132, body
    absent from src/); spec section 7: "Create with zero size or size
    greater than the chunk byte maximum: rejected by create before any
    allocation" - rejection is the `none` result. -/
def create (label : String) (req : Nat) : Option PoolState :=
  if req = 0 ∨ MEM_CHUNK_MAX_SIZE < req then none else some (freshPool label req)

/-- MemAllocatorProxy (MemPool.h:244-275): label, size and the lazily
    bound allocator, initialized to NULL by the inline constructor at
    MemPool.h:442. -/
structure MemAllocatorProxy where
  label : String
  size : Nat
  theAllocator : Option PoolState
deriving DecidableEq

/-- Modelled from the spec: MemAllocatorProxy::alloc (spec 4.7: first call
    triggers registry.create(label, size), memoized; subsequent calls
    forward).  `none` reports a rejected create. -/
def MemAllocatorProxy.alloc (px : MemAllocatorProxy) (now : Nat) :
    Option (Ptr × MemAllocatorProxy) :=
  match px.theAllocator with
  | some pool =>
    let r := pool.alloc now
    some (r.1, { px with theAllocator := some r.2 })
  | none =>
    match create px.label px.size with
    | some pool =>
      let r := pool.alloc now
      some (r.1, { px with theAllocator := some r.2 })
    | none => none

/-- The operator new generated by MEMPROXY_CLASS_INLINE (MemPool.h:303-310)
    for a class of size `sizeofClass`, as instantiated by
    StoreMetaRangeLength.h and StoreMetaRangeOffset.h: assert
    (byteCount == sizeof(CLASS)), then forward to Pool().alloc().  A failed
    assertion aborts instead of allocating, modelled as `none`. -/
def memproxyOperatorNew (px : MemAllocatorProxy) (sizeofClass byteCount now : Nat) :
    Option (Ptr × MemAllocatorProxy) :=
  if byteCount = sizeofClass then MemAllocatorProxy.alloc px now else none

/-! ## Well-formedness -/

/-- Slot indices of cached slots belonging to the chunk with id `cid`. -/
def cachedIdxs (cid : Nat) (cache : List Ptr) : List Nat :=
  (cache.filter fun p => p.chunkId == cid).map Ptr.slotIdx

/-- Chunk bookkeeping invariant relative to the pool cache: the chunk's
    free slots and its cached slots are distinct in-range slots, the
    aggregate in-use count complements the free list, and the slab has one
    contents entry per slot. -/
def ChunkWF (cache : List Ptr) (c : MemChunk) : Prop :=
  (c.freeList ++ cachedIdxs c.cid cache).Nodup
  ∧ (∀ i ∈ c.freeList ++ cachedIdxs c.cid cache, i < c.capacity)
  ∧ c.inUse + c.freeList.length = c.capacity
  ∧ c.mem.length = c.capacity

def sumCaps (cs : List MemChunk) : Nat := (cs.map MemChunk.capacity).sum

def sumFree (cs : List MemChunk) : Nat := (cs.map fun c => c.freeList.length).sum

/-- Chunk-set/cache invariant: distinct chunk ids, a duplicate-free cache
    whose every slot has an owning chunk, and per-chunk bookkeeping. -/
def ChunksWF (cache : List Ptr) (cs : List MemChunk) : Prop :=
  (cs.map MemChunk.cid).Nodup
  ∧ cache.Nodup
  ∧ (∀ p ∈ cache, ∃ c ∈ cs, c.cid = p.chunkId)
  ∧ (∀ c ∈ cs, ChunkWF cache c)

/-- Pool well-formedness: bookkeeping plus the meter accounting equations
    (spec section 3 invariants). -/
def WF (s : PoolState) : Prop :=
  0 < s.obj_size
  ∧ 0 < s.chunk_capacity
  ∧ (∀ c ∈ s.chunks, c.cid < s.nextCid)
  ∧ ChunksWF s.cache s.chunks
  ∧ s.meter.alloc.level = sumCaps s.chunks * s.obj_size
  ∧ s.meter.idle.level = (s.cache.length + sumFree s.chunks) * s.obj_size
  ∧ s.meter.inuse.level + s.meter.idle.level = s.meter.alloc.level

/-- Precondition of a legal free (spec section 7: anything else is an
    invalid free): `p` is a slot of one of the pool's chunks and is
    currently handed out - neither cached nor on its chunk's free list. -/
def ValidFree (s : PoolState) (p : Ptr) : Prop :=
  (∃ c ∈ s.chunks, c.cid = p.chunkId ∧ p.slotIdx < c.capacity)
  ∧ p ∉ s.cache
  ∧ (∀ c ∈ s.chunks, c.cid = p.chunkId → p.slotIdx ∉ c.freeList)

/-- The claimed meter identity: inuse + idle = alloc (levels). -/
def MeterInv (s : PoolState) : Prop :=
  s.meter.inuse.level + s.meter.idle.level = s.meter.alloc.level

/-- Contents of the slot `p`, when it exists. -/
def readSlot (s : PoolState) (p : Ptr) : Option (List Nat) :=
  match s.chunks.find? fun c => c.cid == p.chunkId with
  | some c => c.mem[p.slotIdx]?
  | none => none

/-! ## Decidability of the invariants -/

instance (cache : List Ptr) (c : MemChunk) : Decidable (ChunkWF cache c) := by
  unfold ChunkWF; infer_instance

instance (cache : List Ptr) (cs : List MemChunk) : Decidable (ChunksWF cache cs) := by
  unfold ChunksWF; infer_instance

instance (s : PoolState) : Decidable (WF s) := by
  unfold WF; infer_instance

instance (s : PoolState) (p : Ptr) : Decidable (ValidFree s p) := by
  unfold ValidFree; infer_instance

instance (s : PoolState) : Decidable (MeterInv s) := by
  unfold MeterInv; infer_instance

/-! ## Counting helpers -/

/-- A duplicate-free list of naturals below `n` has at most `n` entries. -/
lemma nodup_lt_length {l : List Nat} {n : Nat} (h1 : l.Nodup)
    (h2 : ∀ x ∈ l, x < n) : l.length ≤ n := by
  have hsub : l.toFinset ⊆ Finset.range n := by
    intro x hx
    exact Finset.mem_range.mpr (h2 x (List.mem_toFinset.mp hx))
  have hcard := Finset.card_le_card hsub
  rwa [List.toFinset_card_of_nodup h1, Finset.card_range] at hcard

/-! ## setSlot and maybeZero: only slot contents change -/

lemma setSlot_map_cid (cs : List MemChunk) (p : Ptr) (v : List Nat) :
    (setSlot cs p v).map MemChunk.cid = cs.map MemChunk.cid := by
  induction cs with
  | nil => rfl
  | cons c cs ih =>
    simp only [setSlot, List.map_cons] at *
    by_cases h : c.cid = p.chunkId <;> simp [h, ih]

lemma setSlot_map_capacity (cs : List MemChunk) (p : Ptr) (v : List Nat) :
    (setSlot cs p v).map MemChunk.capacity = cs.map MemChunk.capacity := by
  induction cs with
  | nil => rfl
  | cons c cs ih =>
    simp only [setSlot, List.map_cons] at *
    by_cases h : c.cid = p.chunkId <;> simp [h, ih]

lemma setSlot_map_freeList (cs : List MemChunk) (p : Ptr) (v : List Nat) :
    (setSlot cs p v).map MemChunk.freeList = cs.map MemChunk.freeList := by
  induction cs with
  | nil => rfl
  | cons c cs ih =>
    simp only [setSlot, List.map_cons] at *
    by_cases h : c.cid = p.chunkId <;> simp [h, ih]

lemma sumCaps_setSlot (cs : List MemChunk) (p : Ptr) (v : List Nat) :
    sumCaps (setSlot cs p v) = sumCaps cs := by
  unfold sumCaps
  rw [setSlot_map_capacity]

lemma sumFree_eq_maps (cs : List MemChunk) :
    sumFree cs = ((cs.map MemChunk.freeList).map List.length).sum := by
  simp only [sumFree, List.map_map]
  rfl

lemma sumFree_setSlot (cs : List MemChunk) (p : Ptr) (v : List Nat) :
    sumFree (setSlot cs p v) = sumFree cs := by
  rw [sumFree_eq_maps, setSlot_map_freeList, ← sumFree_eq_maps]

lemma chunkWF_setSlot {cache : List Ptr} {cs : List MemChunk} (p : Ptr)
    (v : List Nat) (h : ∀ c ∈ cs, ChunkWF cache c) :
    ∀ c ∈ setSlot cs p v, ChunkWF cache c := by
  intro c hc
  simp only [setSlot, List.mem_map] at hc
  obtain ⟨d, hd, rfl⟩ := hc
  have hdw := h d hd
  by_cases hcid : d.cid = p.chunkId
  · rw [if_pos hcid]
    obtain ⟨w1, w2, w3, w4⟩ := hdw
    exact ⟨w1, w2, w3, by simpa using w4⟩
  · rw [if_neg hcid]
    exact hdw

lemma chunksWF_setSlot {cache : List Ptr} {cs : List MemChunk} (p : Ptr)
    (v : List Nat) (h : ChunksWF cache cs) : ChunksWF cache (setSlot cs p v) := by
  obtain ⟨h1, h2, h3, h4⟩ := h
  refine ⟨by rwa [setSlot_map_cid], h2, ?_, chunkWF_setSlot p v h4⟩
  intro q hq
  obtain ⟨c, hc, hcid⟩ := h3 q hq
  by_cases hm : c.cid = p.chunkId
  · exact ⟨{ c with mem := c.mem.set p.slotIdx v }, by
      simp only [setSlot, List.mem_map]
      exact ⟨c, hc, by rw [if_pos hm]⟩, hcid⟩
  · exact ⟨c, by
      simp only [setSlot, List.mem_map]
      exact ⟨c, hc, by rw [if_neg hm]⟩, hcid⟩

lemma maybeZero_meter (s : PoolState) (p : Ptr) : (maybeZero s p).meter = s.meter := by
  unfold maybeZero; split <;> rfl

lemma maybeZero_cache (s : PoolState) (p : Ptr) : (maybeZero s p).cache = s.cache := by
  unfold maybeZero; split <;> rfl

lemma maybeZero_obj_size (s : PoolState) (p : Ptr) :
    (maybeZero s p).obj_size = s.obj_size := by
  unfold maybeZero; split <;> rfl

lemma maybeZero_chunk_capacity (s : PoolState) (p : Ptr) :
    (maybeZero s p).chunk_capacity = s.chunk_capacity := by
  unfold maybeZero; split <;> rfl

lemma maybeZero_alloc_calls (s : PoolState) (p : Ptr) :
    (maybeZero s p).alloc_calls = s.alloc_calls := by
  unfold maybeZero; split <;> rfl

lemma maybeZero_free_calls (s : PoolState) (p : Ptr) :
    (maybeZero s p).free_calls = s.free_calls := by
  unfold maybeZero; split <;> rfl

lemma maybeZero_saved_calls (s : PoolState) (p : Ptr) :
    (maybeZero s p).saved_calls = s.saved_calls := by
  unfold maybeZero; split <;> rfl

lemma maybeZero_nextCid (s : PoolState) (p : Ptr) :
    (maybeZero s p).nextCid = s.nextCid := by
  unfold maybeZero; split <;> rfl

lemma maybeZero_map_cid (s : PoolState) (p : Ptr) :
    (maybeZero s p).chunks.map MemChunk.cid = s.chunks.map MemChunk.cid := by
  unfold maybeZero; split
  · exact setSlot_map_cid _ _ _
  · rfl

lemma maybeZero_sumCaps (s : PoolState) (p : Ptr) :
    sumCaps (maybeZero s p).chunks = sumCaps s.chunks := by
  unfold maybeZero; split
  · exact sumCaps_setSlot _ _ _
  · rfl

lemma maybeZero_sumFree (s : PoolState) (p : Ptr) :
    sumFree (maybeZero s p).chunks = sumFree s.chunks := by
  unfold maybeZero; split
  · exact sumFree_setSlot _ _ _
  · rfl

lemma maybeZero_chunksWF {s : PoolState} (p : Ptr)
    (h : ChunksWF s.cache s.chunks) :
    ChunksWF (maybeZero s p).cache (maybeZero s p).chunks := by
  rw [maybeZero_cache]
  unfold maybeZero; split
  · exact chunksWF_setSlot _ _ h
  · exact h

/-! ## popFirstFree: decomposition of a successful pop -/

lemma popFirstFree_none {now : Nat} :
    ∀ {cs : List MemChunk}, popFirstFree now cs = none → ∀ c ∈ cs, c.freeList = [] := by
  intro cs
  induction cs with
  | nil => intro _ c hc; cases hc
  | cons c cs ih =>
    intro h d hd
    rcases List.mem_cons.mp hd with rfl | hd
    · cases hf : d.freeList with
      | nil => rfl
      | cons i is => rw [popFirstFree, hf] at h; cases h
    · cases hf : c.freeList with
      | nil =>
        rw [popFirstFree, hf] at h
        cases hrec : popFirstFree now cs with
        | none => exact ih hrec d hd
        | some r => rw [hrec] at h; cases h
      | cons i is => rw [popFirstFree, hf] at h; cases h

lemma popFirstFree_some {now : Nat} :
    ∀ {cs : List MemChunk} {p : Ptr} {cs' : List MemChunk},
    popFirstFree now cs = some (p, cs') →
    ∃ l1 c is l2,
      cs = l1 ++ c :: l2 ∧
      (∀ d ∈ l1, d.freeList = []) ∧
      c.freeList = p.slotIdx :: is ∧
      p.chunkId = c.cid ∧
      cs' = l1 ++ { c with freeList := is, inUse := c.inUse + 1, lastRef := now } :: l2 := by
  intro cs
  induction cs with
  | nil => intro p cs' h; cases h
  | cons c cs ih =>
    intro p cs' h
    cases hf : c.freeList with
    | cons i is =>
      rw [popFirstFree, hf] at h
      injection h with h1
      injection h1 with hp hcs
      refine ⟨[], c, is, cs, by simp, by simp, ?_, ?_, ?_⟩
      · rw [hf, ← hp]
      · rw [← hp]
      · rw [← hcs]
        simp
    | nil =>
      rw [popFirstFree, hf] at h
      cases hrec : popFirstFree now cs with
      | none => rw [hrec] at h; cases h
      | some r =>
        obtain ⟨q, cs₂⟩ := r
        rw [hrec] at h
        injection h with h1
        injection h1 with hp hcs
        obtain ⟨l1, d, is, l2, hdec, hemp, hfr, hcid, hcs2⟩ :=
          ih (show popFirstFree now cs = some (p, cs₂) by rw [hrec, hp])
        refine ⟨c :: l1, d, is, l2, by rw [hdec]; rfl, ?_, hfr, hcid, ?_⟩
        · intro e he
          rcases List.mem_cons.mp he with rfl | he
          · exact hf
          · exact hemp e he
        · rw [← hcs, hcs2]
          rfl

/-! ## Cache partition counting -/

lemma cachedIdxs_nil (cid : Nat) : cachedIdxs cid [] = [] := rfl

lemma cachedIdxs_cons_eq {p : Ptr} {cid : Nat} (ps : List Ptr)
    (h : p.chunkId = cid) :
    cachedIdxs cid (p :: ps) = p.slotIdx :: cachedIdxs cid ps := by
  simp [cachedIdxs, List.filter_cons, h]

lemma cachedIdxs_cons_ne {p : Ptr} {cid : Nat} (ps : List Ptr)
    (h : ¬ p.chunkId = cid) :
    cachedIdxs cid (p :: ps) = cachedIdxs cid ps := by
  simp [cachedIdxs, List.filter_cons, h]

lemma mem_cachedIdxs {q : Ptr} {cid : Nat} {ps : List Ptr}
    (hq : q ∈ ps) (hcid : q.chunkId = cid) : q.slotIdx ∈ cachedIdxs cid ps := by
  simp only [cachedIdxs, List.mem_map, List.mem_filter]
  exact ⟨q, ⟨hq, by simp [hcid]⟩, rfl⟩

lemma of_mem_cachedIdxs {x cid : Nat} {ps : List Ptr}
    (hx : x ∈ cachedIdxs cid ps) : ∃ q ∈ ps, q.chunkId = cid ∧ q.slotIdx = x := by
  simp only [cachedIdxs, List.mem_map, List.mem_filter] at hx
  obtain ⟨q, ⟨hq, hcid⟩, rfl⟩ := hx
  exact ⟨q, hq, by simpa using hcid, rfl⟩

lemma sum_map_add_distrib {α : Type} (l : List α) (f g : α → Nat) :
    (l.map fun a => f a + g a).sum = (l.map f).sum + (l.map g).sum := by
  induction l with
  | nil => rfl
  | cons a l ih => simp [ih]; omega

lemma count_cid_one {x : Nat} :
    ∀ {cs : List MemChunk}, (cs.map MemChunk.cid).Nodup →
    (∃ c ∈ cs, c.cid = x) →
    (cs.map fun c => if x = c.cid then 1 else 0).sum = 1 := by
  intro cs
  induction cs with
  | nil => intro _ hex; simp at hex
  | cons d ds ih =>
    intro hnd hex
    simp only [List.map_cons, List.sum_cons]
    by_cases hdx : x = d.cid
    · rw [if_pos hdx]
      have hzero : (ds.map fun c => if x = c.cid then 1 else 0).sum = 0 := by
        apply List.sum_eq_zero
        intro y hy
        simp only [List.mem_map] at hy
        obtain ⟨c, hc, rfl⟩ := hy
        have hne : x ≠ c.cid := by
          intro hcontra
          have : d.cid ∈ ds.map MemChunk.cid :=
            List.mem_map.mpr ⟨c, hc, by rw [← hcontra, ← hdx]⟩
          exact (List.nodup_cons.mp (by simpa using hnd)).1 this
        rw [if_neg hne]
      omega
    · rw [if_neg hdx]
      obtain ⟨c, hc, hcx⟩ := hex
      rcases List.mem_cons.mp hc with rfl | hc
      · exact absurd hcx.symm hdx
      · have := ih (List.nodup_cons.mp (by simpa using hnd)).2 ⟨c, hc, hcx⟩
        omega

lemma cache_length_partition :
    ∀ {ps : List Ptr} {cs : List MemChunk},
    (cs.map MemChunk.cid).Nodup →
    (∀ p ∈ ps, ∃ c ∈ cs, c.cid = p.chunkId) →
    (cs.map fun c => (cachedIdxs c.cid ps).length).sum = ps.length := by
  intro ps
  induction ps with
  | nil =>
    intro cs _ _
    apply List.sum_eq_zero
    intro y hy
    simp only [List.mem_map] at hy
    obtain ⟨c, _, rfl⟩ := hy
    rfl
  | cons p ps ih =>
    intro cs hnd hval
    have hstep : (cs.map fun c => (cachedIdxs c.cid (p :: ps)).length).sum =
        (cs.map fun c => (cachedIdxs c.cid ps).length +
          (if p.chunkId = c.cid then 1 else 0)).sum := by
      congr 1
      apply List.map_congr_left
      intro c _
      by_cases h : p.chunkId = c.cid
      · rw [cachedIdxs_cons_eq _ h, if_pos h]
        simp
      · rw [cachedIdxs_cons_ne _ h, if_neg h]
        simp
    rw [hstep, sum_map_add_distrib,
      ih hnd (fun q hq => hval q (List.mem_cons_of_mem _ hq)),
      count_cid_one hnd (by
        obtain ⟨c, hc, hcid⟩ := hval p (List.mem_cons_self _ _)
        exact ⟨c, hc, hcid⟩)]
    simp

/-- Per-chunk counting: free slots plus cached slots never exceed capacity. -/
lemma chunk_count_le {cache : List Ptr} {c : MemChunk} (h : ChunkWF cache c) :
    c.freeList.length + (cachedIdxs c.cid cache).length ≤ c.capacity := by
  have := nodup_lt_length h.1 h.2.1
  simpa [List.length_append] using this

/-- Global counting: cached plus free slots never exceed owned slots. -/
lemma global_free_le {ps : List Ptr} {cs : List MemChunk} (h : ChunksWF ps cs) :
    ps.length + sumFree cs ≤ sumCaps cs := by
  obtain ⟨hnd, _, hval, hcw⟩ := h
  have hpart := cache_length_partition hnd hval
  have hle : (cs.map fun c => c.freeList.length +
      (cachedIdxs c.cid ps).length).sum ≤ (cs.map MemChunk.capacity).sum := by
    apply List.sum_le_sum
    intro c hc
    exact chunk_count_le (hcw c hc)
  rw [sum_map_add_distrib] at hle
  unfold sumFree sumCaps
  omega

/-- Chunk ids determine chunks within a duplicate-free chunk list. -/
lemma cid_unique : ∀ {cs : List MemChunk},
    (cs.map MemChunk.cid).Nodup → ∀ {c d : MemChunk},
    c ∈ cs → d ∈ cs → c.cid = d.cid → c = d := by
  intro cs
  induction cs with
  | nil => intro _ c d hc; cases hc
  | cons e es ih =>
    intro hnd c d hc hd he
    have hnd' : e.cid ∉ es.map MemChunk.cid ∧ (es.map MemChunk.cid).Nodup := by
      rw [List.map_cons, List.nodup_cons] at hnd
      exact hnd
    rcases List.mem_cons.mp hc with rfl | hc2
    · rcases List.mem_cons.mp hd with rfl | hd2
      · rfl
      · have hmm : c.cid ∈ es.map MemChunk.cid := List.mem_map.mpr ⟨d, hd2, he.symm⟩
        exact absurd hmm hnd'.1
    · rcases List.mem_cons.mp hd with rfl | hd2
      · have hmm : d.cid ∈ es.map MemChunk.cid := List.mem_map.mpr ⟨c, hc2, he⟩
        exact absurd hmm hnd'.1
      · exact ih hnd'.2 hc2 hd2 he

lemma validFree_not_mem_cachedIdxs {cache : List Ptr} {p : Ptr} {cid : Nat}
    (hnc : p ∉ cache) (hcid : cid = p.chunkId) :
    p.slotIdx ∉ cachedIdxs cid cache := by
  intro hmem
  obtain ⟨q, hq, hqc, hqs⟩ := of_mem_cachedIdxs hmem
  obtain ⟨qa, qb⟩ := q
  obtain ⟨pa, pb⟩ := p
  have h1 : qa = pa := by
    have hq1 : qa = cid := hqc
    have hc1 : cid = pa := hcid
    rw [hq1, hc1]
  have h2 : qb = pb := hqs
  subst h1
  subst h2
  exact hnc hq

/-- With a handed-out slot in evidence, the count is strict. -/
lemma global_free_lt {s : PoolState}
    (hwf : ChunksWF s.cache s.chunks) {p : Ptr} (hv : ValidFree s p) :
    s.cache.length + sumFree s.chunks < sumCaps s.chunks := by
  obtain ⟨hnd, hcnd, hval, hcw⟩ := hwf
  obtain ⟨⟨c, hc, hcid, hlt⟩, hnc, hnf⟩ := hv
  obtain ⟨l1, l2, hsplit⟩ := List.append_of_mem hc
  have hcw_c := hcw c hc
  have hins : (p.slotIdx :: (c.freeList ++ cachedIdxs c.cid s.cache)).Nodup := by
    rw [List.nodup_cons]
    refine ⟨?_, hcw_c.1⟩
    intro hmem
    rcases List.mem_append.mp hmem with hf | hcch
    · exact hnf c hc hcid hf
    · exact validFree_not_mem_cachedIdxs hnc hcid hcch
  have hbound : ∀ x ∈ p.slotIdx :: (c.freeList ++ cachedIdxs c.cid s.cache),
      x < c.capacity := by
    intro x hx
    rcases List.mem_cons.mp hx with rfl | hx
    · exact hlt
    · exact hcw_c.2.1 x hx
  have hstrict := nodup_lt_length hins hbound
  simp only [List.length_cons, List.length_append] at hstrict
  have hpart := cache_length_partition hnd hval
  have h1 : (l1.map fun d => d.freeList.length +
      (cachedIdxs d.cid s.cache).length).sum ≤ (l1.map MemChunk.capacity).sum := by
    apply List.sum_le_sum
    intro d hd
    exact chunk_count_le (hcw d (by rw [hsplit]; exact List.mem_append_left _ hd))
  have h2 : (l2.map fun d => d.freeList.length +
      (cachedIdxs d.cid s.cache).length).sum ≤ (l2.map MemChunk.capacity).sum := by
    apply List.sum_le_sum
    intro d hd
    refine chunk_count_le (hcw d ?_)
    rw [hsplit]
    exact List.mem_append_right _ (List.mem_cons_of_mem _ hd)
  rw [sum_map_add_distrib] at h1 h2
  rw [hsplit] at hpart ⊢
  unfold sumFree sumCaps at *
  simp only [List.map_append, List.sum_append, List.map_cons, List.sum_cons] at hpart ⊢
  omega

/-! ## free: preservation -/

lemma free_WF {s : PoolState} {p : Ptr} (h : WF s) (hv : ValidFree s p) :
    WF (s.free p) := by
  obtain ⟨hobj, hcap, hfresh, hcwf, hma, hmi, hms⟩ := h
  have hlt := global_free_lt hcwf hv
  obtain ⟨hnd, hcnd, hval, hcw⟩ := hcwf
  obtain ⟨⟨c0, hc0, hcid0, hlt0⟩, hnc, hnf⟩ := hv
  have hinuse : s.obj_size ≤ s.meter.inuse.level := by
    have hmul : (s.cache.length + sumFree s.chunks + 1) * s.obj_size ≤
        sumCaps s.chunks * s.obj_size := Nat.mul_le_mul_right _ hlt
    have hdistrib : (s.cache.length + sumFree s.chunks + 1) * s.obj_size =
        (s.cache.length + sumFree s.chunks) * s.obj_size + s.obj_size := by ring
    omega
  refine ⟨hobj, hcap, hfresh, ⟨hnd, ?_, ?_, ?_⟩, ?_, ?_, ?_⟩
  · exact List.nodup_cons.mpr ⟨hnc, hcnd⟩
  · intro q hq
    rcases List.mem_cons.mp hq with rfl | hq
    · exact ⟨c0, hc0, hcid0⟩
    · exact hval q hq
  · intro c hc
    replace hc : c ∈ s.chunks := hc
    show ChunkWF (p :: s.cache) c
    have hcwc := hcw c hc
    by_cases hm : c.cid = p.chunkId
    · have hceq : c = c0 := cid_unique hnd hc hc0 (by rw [hm, hcid0])
      refine ⟨?_, ?_, hcwc.2.2.1, hcwc.2.2.2⟩
      · show (c.freeList ++ cachedIdxs c.cid (p :: s.cache)).Nodup
        rw [cachedIdxs_cons_eq _ hm.symm]
        have hperm : (c.freeList ++ p.slotIdx :: cachedIdxs c.cid s.cache).Perm
            (p.slotIdx :: (c.freeList ++ cachedIdxs c.cid s.cache)) :=
          List.perm_middle
        refine hperm.symm.nodup ?_
        rw [List.nodup_cons]
        refine ⟨?_, hcwc.1⟩
        intro hmem
        rcases List.mem_append.mp hmem with hf | hcch
        · exact hnf c hc hm hf
        · exact validFree_not_mem_cachedIdxs hnc hm hcch
      · intro i hi
        rw [cachedIdxs_cons_eq _ hm.symm] at hi
        have hperm : (c.freeList ++ p.slotIdx :: cachedIdxs c.cid s.cache).Perm
            (p.slotIdx :: (c.freeList ++ cachedIdxs c.cid s.cache)) :=
          List.perm_middle
        rcases List.mem_cons.mp (hperm.mem_iff.mp hi) with rfl | hi'
        · rw [hceq]
          exact hlt0
        · exact hcwc.2.1 i hi'
    · refine ⟨?_, ?_, hcwc.2.2.1, hcwc.2.2.2⟩
      · show (c.freeList ++ cachedIdxs c.cid (p :: s.cache)).Nodup
        rw [cachedIdxs_cons_ne _ (fun he => hm he.symm)]
        exact hcwc.1
      · intro i hi
        rw [cachedIdxs_cons_ne _ (fun he => hm he.symm)] at hi
        exact hcwc.2.1 i hi
  · exact hma
  · show s.meter.idle.level + s.obj_size =
      (s.cache.length + 1 + sumFree s.chunks) * s.obj_size
    rw [hmi]
    ring
  · show s.meter.inuse.level - s.obj_size + (s.meter.idle.level + s.obj_size) =
      s.meter.alloc.level
    omega

/-! ## alloc: helpers -/

lemma forall_cid_lt {cs : List MemChunk} {N : Nat} :
    (∀ x ∈ cs.map MemChunk.cid, x < N) → ∀ c ∈ cs, c.cid < N := by
  intro h c hc
  exact h c.cid (List.mem_map.mpr ⟨c, hc, rfl⟩)

lemma forall_cid_lt_of_map_eq {cs cs' : List MemChunk} {N : Nat}
    (heq : cs'.map MemChunk.cid = cs.map MemChunk.cid)
    (h : ∀ c ∈ cs, c.cid < N) : ∀ c ∈ cs', c.cid < N := by
  apply forall_cid_lt
  rw [heq]
  intro x hx
  obtain ⟨c, hc, rfl⟩ := List.mem_map.mp hx
  exact h c hc

/-- Dropping the cache head weakens the chunk/cache invariant. -/
lemma chunksWF_shrink_cache {p : Ptr} {rest : List Ptr} {cs : List MemChunk}
    (h : ChunksWF (p :: rest) cs) : ChunksWF rest cs := by
  obtain ⟨hnd, hcnd, hval, hcw⟩ := h
  refine ⟨hnd, (List.nodup_cons.mp hcnd).2,
    fun q hq => hval q (List.mem_cons_of_mem _ hq), ?_⟩
  intro c hc
  obtain ⟨w1, w2, w3, w4⟩ := hcw c hc
  have hsub : List.Sublist (c.freeList ++ cachedIdxs c.cid rest)
      (c.freeList ++ cachedIdxs c.cid (p :: rest)) := by
    apply List.Sublist.append_left
    unfold cachedIdxs
    exact ((List.sublist_cons_self _ _).filter _).map _
  exact ⟨w1.sublist hsub, fun i hi => w2 i (hsub.mem hi), w3, w4⟩

lemma mem_setSlot_inv {cs : List MemChunk} {p : Ptr} {v : List Nat} {c' : MemChunk}
    (h : c' ∈ setSlot cs p v) :
    ∃ c ∈ cs, c'.cid = c.cid ∧ c'.capacity = c.capacity ∧ c'.freeList = c.freeList := by
  simp only [setSlot, List.mem_map] at h
  obtain ⟨c, hc, rfl⟩ := h
  by_cases hm : c.cid = p.chunkId
  · rw [if_pos hm]
    exact ⟨c, hc, rfl, rfl, rfl⟩
  · rw [if_neg hm]
    exact ⟨c, hc, rfl, rfl, rfl⟩

lemma mem_setSlot_of_mem {cs : List MemChunk} (p : Ptr) (v : List Nat)
    {c : MemChunk} (hc : c ∈ cs) :
    ∃ c' ∈ setSlot cs p v, c'.cid = c.cid ∧ c'.capacity = c.capacity
      ∧ c'.freeList = c.freeList := by
  by_cases hm : c.cid = p.chunkId
  · refine ⟨{ c with mem := c.mem.set p.slotIdx v }, ?_, rfl, rfl, rfl⟩
    simp only [setSlot, List.mem_map]
    exact ⟨c, hc, by rw [if_pos hm]⟩
  · refine ⟨c, ?_, rfl, rfl, rfl⟩
    simp only [setSlot, List.mem_map]
    exact ⟨c, hc, by rw [if_neg hm]⟩

lemma find?_setSlot (cs : List MemChunk) (p : Ptr) (v : List Nat) :
    (setSlot cs p v).find? (fun d => d.cid == p.chunkId) =
      (cs.find? fun d => d.cid == p.chunkId).map
        (fun c => if c.cid = p.chunkId then
          { c with mem := c.mem.set p.slotIdx v } else c) := by
  induction cs with
  | nil => rfl
  | cons c cs ih =>
    by_cases hm : c.cid = p.chunkId
    · rw [setSlot, List.map_cons, if_pos hm]
      rw [List.find?_cons_of_pos _ (by simpa using hm),
        List.find?_cons_of_pos _ (by simpa using hm)]
      simp [if_pos hm]
    · rw [setSlot, List.map_cons, if_neg hm]
      rw [List.find?_cons_of_neg _ (by simpa using hm),
        List.find?_cons_of_neg _ (by simpa using hm)]
      exact ih

/-- After the optional zeroing step, the handed-out slot reads back as
    object_size zero bytes. -/
lemma readSlot_maybeZero {t0 : PoolState} {p : Ptr}
    (hz : t0.doZeroOnPush = true)
    (hnd : (t0.chunks.map MemChunk.cid).Nodup)
    (hex : ∃ c ∈ t0.chunks, c.cid = p.chunkId ∧ p.slotIdx < c.capacity
      ∧ c.mem.length = c.capacity) :
    readSlot (maybeZero t0 p) p = some (List.replicate t0.obj_size 0) := by
  obtain ⟨c, hc, hcid, hltc, hlen⟩ := hex
  have hz' : maybeZero t0 p =
      { t0 with chunks := setSlot t0.chunks p (List.replicate t0.obj_size 0) } := by
    unfold maybeZero
    rw [if_pos hz]
  have hsome : (t0.chunks.find? fun d => d.cid == p.chunkId).isSome := by
    rw [List.find?_isSome]
    exact ⟨c, hc, by simpa using hcid⟩
  obtain ⟨c', hfind⟩ := Option.isSome_iff_exists.mp hsome
  have hc'mem : c' ∈ t0.chunks := List.mem_of_find?_eq_some hfind
  have hc'cid : c'.cid = p.chunkId := by
    have := List.find?_some hfind
    simpa using this
  have hceq : c' = c := cid_unique hnd hc'mem hc (by rw [hc'cid, hcid])
  have hltlen : p.slotIdx < c'.mem.length := by
    rw [hceq, hlen]
    exact hltc
  have hfind2 : ((setSlot t0.chunks p (List.replicate t0.obj_size 0)).find?
      fun d => d.cid == p.chunkId) =
      some { c' with mem := c'.mem.set p.slotIdx (List.replicate t0.obj_size 0) } := by
    rw [find?_setSlot, hfind]
    rw [Option.map_some', if_pos hc'cid]
  rw [hz']
  unfold readSlot
  rw [hfind2]
  simp [List.getElem?_set, hltlen]

lemma sumFree_eq_zero {cs : List MemChunk}
    (h : ∀ c ∈ cs, c.freeList = []) : sumFree cs = 0 := by
  apply List.sum_eq_zero
  intro x hx
  obtain ⟨c, hc, rfl⟩ := List.mem_map.mp hx
  rw [h c hc]
  rfl

lemma maybeZero_mem_of_mem {t : PoolState} (p : Ptr) {c : MemChunk}
    (hc : c ∈ t.chunks) :
    ∃ c' ∈ (maybeZero t p).chunks, c'.cid = c.cid ∧ c'.capacity = c.capacity
      ∧ c'.freeList = c.freeList := by
  unfold maybeZero; split
  · obtain ⟨c', hc', h1, h2, h3⟩ := mem_setSlot_of_mem p _ hc
    exact ⟨c', hc', h1, h2, h3⟩
  · exact ⟨c, hc, rfl, rfl, rfl⟩

lemma maybeZero_mem_inv {t : PoolState} (p : Ptr) {c' : MemChunk}
    (hc : c' ∈ (maybeZero t p).chunks) :
    ∃ c ∈ t.chunks, c'.cid = c.cid ∧ c'.capacity = c.capacity
      ∧ c'.freeList = c.freeList := by
  unfold maybeZero at hc
  split at hc
  · exact mem_setSlot_inv hc
  · exact ⟨c', hc, rfl, rfl, rfl⟩

/-! ## alloc: the cache-hit path (spec 4.3 step 1) -/

lemma alloc_cache_path {s : PoolState} {p : Ptr} {rest : List Ptr}
    (h : WF s) (hc : s.cache = p :: rest) (now : Nat) :
    (s.alloc now).1 = p
    ∧ (s.alloc now).2.meter.inuse.level = s.meter.inuse.level + s.obj_size
    ∧ (s.alloc now).2.meter.idle.level + s.obj_size = s.meter.idle.level
    ∧ (s.alloc now).2.meter.alloc.level = s.meter.alloc.level
    ∧ (s.alloc now).2.alloc_calls = s.alloc_calls
    ∧ (s.alloc now).2.saved_calls = s.saved_calls + 1
    ∧ (s.alloc now).2.free_calls = s.free_calls
    ∧ (s.alloc now).2.obj_size = s.obj_size
    ∧ WF (s.alloc now).2
    ∧ ValidFree (s.alloc now).2 (s.alloc now).1
    ∧ (s.doZeroOnPush = true →
        readSlot (s.alloc now).2 (s.alloc now).1 =
          some (List.replicate s.obj_size 0)) := by
  obtain ⟨hobj, hcap, hfresh, hcwf, hma, hmi, hms⟩ := h
  rw [hc] at hcwf hmi
  obtain ⟨hnd, hcnd, hval, hcw⟩ := hcwf
  have heq : s.alloc now = (p, maybeZero { s with
      cache := rest,
      saved_calls := s.saved_calls + 1,
      meter := s.meter.takeIdle s.obj_size } p) := by
    unfold PoolState.alloc
    rw [hc]
  have hpc : p ∈ p :: rest := List.mem_cons_self _ _
  obtain ⟨c0, hc0, hcid0⟩ := hval p hpc
  have hcw0 := hcw c0 hc0
  have hidx : p.slotIdx ∈ cachedIdxs c0.cid (p :: rest) :=
    mem_cachedIdxs hpc hcid0.symm
  have hlt0 : p.slotIdx < c0.capacity :=
    hcw0.2.1 _ (List.mem_append_right _ hidx)
  have hnotfree0 : p.slotIdx ∉ c0.freeList := by
    intro hin
    exact List.disjoint_of_nodup_append hcw0.1 hin hidx
  have hobjle : s.obj_size ≤ s.meter.idle.level := by
    rw [hmi]
    have h1 : 1 ≤ (p :: rest).length + sumFree s.chunks := by
      simp [List.length_cons]
      omega
    calc s.obj_size = 1 * s.obj_size := by ring
    _ ≤ ((p :: rest).length + sumFree s.chunks) * s.obj_size :=
      Nat.mul_le_mul_right _ h1
  rw [heq]
  have hshr : ChunksWF rest s.chunks := chunksWF_shrink_cache ⟨hnd, hcnd, hval, hcw⟩
  have hmz := maybeZero_chunksWF (s := { s with
      cache := rest,
      saved_calls := s.saved_calls + 1,
      meter := s.meter.takeIdle s.obj_size }) p hshr
  have hdistrib : ((p :: rest).length + sumFree s.chunks) * s.obj_size =
      (rest.length + sumFree s.chunks) * s.obj_size + s.obj_size := by
    simp [List.length_cons]
    ring
  refine ⟨rfl, by rw [maybeZero_meter]; rfl, ?_, by rw [maybeZero_meter]; rfl,
    by rw [maybeZero_alloc_calls], by rw [maybeZero_saved_calls],
    by rw [maybeZero_free_calls], by rw [maybeZero_obj_size],
    ?_, ?_, ?_⟩
  · rw [maybeZero_meter]
    show s.meter.idle.level - s.obj_size + s.obj_size = s.meter.idle.level
    omega
  · -- WF of the post-state
    refine ⟨?_, ?_, ?_, hmz, ?_, ?_, ?_⟩
    · rw [maybeZero_obj_size]
      exact hobj
    · rw [maybeZero_chunk_capacity]
      exact hcap
    · rw [maybeZero_nextCid]
      exact forall_cid_lt_of_map_eq (maybeZero_map_cid _ p) hfresh
    · rw [maybeZero_meter, maybeZero_sumCaps, maybeZero_obj_size]
      exact hma
    · rw [maybeZero_meter, maybeZero_sumFree, maybeZero_obj_size, maybeZero_cache]
      show s.meter.idle.level - s.obj_size =
        (rest.length + sumFree s.chunks) * s.obj_size
      rw [hmi]
      omega
    · rw [maybeZero_meter]
      show s.meter.inuse.level + s.obj_size +
        (s.meter.idle.level - s.obj_size) = s.meter.alloc.level
      omega
  · -- ValidFree of the returned slot
    refine ⟨?_, ?_, ?_⟩
    · obtain ⟨c', hc', h1, h2, _⟩ := maybeZero_mem_of_mem (t := { s with
        cache := rest,
        saved_calls := s.saved_calls + 1,
        meter := s.meter.takeIdle s.obj_size }) p hc0
      exact ⟨c', hc', by rw [h1, hcid0], by rw [h2]; exact hlt0⟩
    · rw [maybeZero_cache]
      exact (List.nodup_cons.mp hcnd).1
    · intro c' hc' hcid'
      obtain ⟨c, hcm, h1, _, h3⟩ := maybeZero_mem_inv p hc'
      have hceq : c = c0 := cid_unique hnd hcm hc0 (by rw [← h1, hcid', hcid0])
      rw [h3, hceq]
      exact hnotfree0
  · -- zeroed contents
    intro hz
    exact readSlot_maybeZero hz hnd ⟨c0, hc0, hcid0, hlt0, hcw0.2.2.2⟩

lemma cid_middle_ne {l1 l2 : List MemChunk} {c : MemChunk}
    (hnd : ((l1 ++ c :: l2).map MemChunk.cid).Nodup) :
    ∀ d, d ∈ l1 ∨ d ∈ l2 → d.cid ≠ c.cid := by
  have hperm : ((l1 ++ c :: l2).map MemChunk.cid).Perm
      (c.cid :: (l1.map MemChunk.cid ++ l2.map MemChunk.cid)) := by
    simp only [List.map_append, List.map_cons]
    exact List.perm_middle
  have hnd2 := hperm.nodup hnd
  have hnotin := (List.nodup_cons.mp hnd2).1
  intro d hd he
  apply hnotin
  rcases hd with hd | hd
  · exact List.mem_append_left _ (List.mem_map.mpr ⟨d, hd, he⟩)
  · exact List.mem_append_right _ (List.mem_map.mpr ⟨d, hd, he⟩)

/-! ## alloc: the existing-chunk path (spec 4.3 steps 2 and 4) -/

lemma alloc_chunk_path {s : PoolState} {p : Ptr} {cs : List MemChunk} {now : Nat}
    (h : WF s) (hc : s.cache = []) (hpop : popFirstFree now s.chunks = some (p, cs)) :
    (s.alloc now).1 = p
    ∧ (s.alloc now).2.meter.inuse.level = s.meter.inuse.level + s.obj_size
    ∧ (s.alloc now).2.meter.idle.level + s.obj_size = s.meter.idle.level
    ∧ (s.alloc now).2.meter.alloc.level = s.meter.alloc.level
    ∧ (s.alloc now).2.alloc_calls = s.alloc_calls + 1
    ∧ (s.alloc now).2.saved_calls = s.saved_calls
    ∧ (s.alloc now).2.free_calls = s.free_calls
    ∧ (s.alloc now).2.obj_size = s.obj_size
    ∧ WF (s.alloc now).2
    ∧ ValidFree (s.alloc now).2 (s.alloc now).1
    ∧ (s.doZeroOnPush = true →
        readSlot (s.alloc now).2 (s.alloc now).1 =
          some (List.replicate s.obj_size 0)) := by
  obtain ⟨hobj, hcap, hfresh, hcwf, hma, hmi, hms⟩ := h
  rw [hc] at hcwf hmi
  obtain ⟨hnd, _, _, hcw⟩ := hcwf
  obtain ⟨l1, c, is, l2, hdec, hemp, hfr, hcid, hcs'⟩ := popFirstFree_some hpop
  have heq : s.alloc now = (p, maybeZero { s with
      chunks := cs,
      alloc_calls := s.alloc_calls + 1,
      meter := s.meter.takeIdle s.obj_size } p) := by
    unfold PoolState.alloc
    rw [hc, hpop]
  have hmapcid : cs.map MemChunk.cid = s.chunks.map MemChunk.cid := by
    rw [hdec, hcs']
    simp
  have hsumcaps : sumCaps cs = sumCaps s.chunks := by
    rw [hdec, hcs']
    unfold sumCaps
    simp
  have hsumfree : sumFree cs + 1 = sumFree s.chunks := by
    rw [hdec, hcs']
    unfold sumFree
    simp only [List.map_append, List.sum_append, List.map_cons, List.sum_cons,
      hfr, List.length_cons]
    omega
  have hcmem : c ∈ s.chunks := by
    rw [hdec]
    exact List.mem_append_right _ (List.mem_cons_self _ _)
  have hcwc := hcw c hcmem
  have hfrnodup : c.freeList.Nodup := by
    have := hcwc.1
    rw [cachedIdxs_nil, List.append_nil] at this
    exact this
  have hltp : p.slotIdx < c.capacity := by
    apply hcwc.2.1
    apply List.mem_append_left
    rw [hfr]
    exact List.mem_cons_self _ _
  have hnd' : (cs.map MemChunk.cid).Nodup := by
    rw [hmapcid]
    exact hnd
  have hmid := cid_middle_ne (by rw [← hdec]; exact hnd)
  have hchwf : ∀ d ∈ cs, ChunkWF ([] : List Ptr) d := by
    intro d hd
    rw [hcs'] at hd
    rcases List.mem_append.mp hd with hd | hd
    · exact hcw d (by rw [hdec]; exact List.mem_append_left _ hd)
    · rcases List.mem_cons.mp hd with rfl | hd
      · have w3 := hcwc.2.2.1
        rw [hfr] at w3
        refine ⟨?_, ?_, ?_, hcwc.2.2.2⟩
        · rw [cachedIdxs_nil, List.append_nil]
          rw [hfr] at hfrnodup
          exact (List.nodup_cons.mp hfrnodup).2
        · intro i hi
          rw [cachedIdxs_nil, List.append_nil] at hi
          apply hcwc.2.1
          apply List.mem_append_left
          rw [hfr]
          exact List.mem_cons_of_mem _ hi
        · show c.inUse + 1 + is.length = c.capacity
          simp only [List.length_cons] at w3
          omega
      · exact hcw d (by
          rw [hdec]
          exact List.mem_append_right _ (List.mem_cons_of_mem _ hd))
  have hchunksWF : ChunksWF ([] : List Ptr) cs :=
    ⟨hnd', List.nodup_nil,
      ⟨fun q hq => absurd hq (List.not_mem_nil q), hchwf⟩⟩
  have hchunksWFc : ChunksWF s.cache cs := by
    rw [hc]
    exact hchunksWF
  have hobjle : s.obj_size ≤ s.meter.idle.level := by
    rw [hmi]
    have h1 : 1 ≤ ([] : List Ptr).length + sumFree s.chunks := by
      simp
      omega
    calc s.obj_size = 1 * s.obj_size := by ring
    _ ≤ (([] : List Ptr).length + sumFree s.chunks) * s.obj_size :=
      Nat.mul_le_mul_right _ h1
  rw [heq]
  have hmz := maybeZero_chunksWF (s := { s with
      chunks := cs,
      alloc_calls := s.alloc_calls + 1,
      meter := s.meter.takeIdle s.obj_size }) p hchunksWFc
  refine ⟨rfl, by rw [maybeZero_meter]; rfl, ?_, by rw [maybeZero_meter]; rfl,
    by rw [maybeZero_alloc_calls], by rw [maybeZero_saved_calls],
    by rw [maybeZero_free_calls], by rw [maybeZero_obj_size],
    ?_, ?_, ?_⟩
  · rw [maybeZero_meter]
    show s.meter.idle.level - s.obj_size + s.obj_size = s.meter.idle.level
    omega
  · -- WF of the post-state
    refine ⟨?_, ?_, ?_, hmz, ?_, ?_, ?_⟩
    · rw [maybeZero_obj_size]
      exact hobj
    · rw [maybeZero_chunk_capacity]
      exact hcap
    · rw [maybeZero_nextCid]
      apply forall_cid_lt_of_map_eq (maybeZero_map_cid _ p)
      exact forall_cid_lt_of_map_eq hmapcid hfresh
    · rw [maybeZero_meter, maybeZero_sumCaps, maybeZero_obj_size]
      show s.meter.alloc.level = sumCaps cs * s.obj_size
      rw [hsumcaps]
      exact hma
    · rw [maybeZero_meter, maybeZero_sumFree, maybeZero_obj_size, maybeZero_cache]
      show s.meter.idle.level - s.obj_size =
        (s.cache.length + sumFree cs) * s.obj_size
      rw [hc, hmi]
      have e1 : (([] : List Ptr).length + sumFree s.chunks) * s.obj_size =
          (([] : List Ptr).length + sumFree cs) * s.obj_size + s.obj_size := by
        rw [← hsumfree]
        ring
      omega
    · rw [maybeZero_meter]
      show s.meter.inuse.level + s.obj_size +
        (s.meter.idle.level - s.obj_size) = s.meter.alloc.level
      omega
  · -- ValidFree of the returned slot
    have hmodmem :
        { c with freeList := is, inUse := c.inUse + 1, lastRef := now } ∈ cs := by
      rw [hcs']
      exact List.mem_append_right _ (List.mem_cons_self _ _)
    refine ⟨?_, ?_, ?_⟩
    · obtain ⟨c', hc', h1, h2, _⟩ := maybeZero_mem_of_mem (t := { s with
        chunks := cs,
        alloc_calls := s.alloc_calls + 1,
        meter := s.meter.takeIdle s.obj_size }) p hmodmem
      exact ⟨c', hc', by rw [h1, hcid], by rw [h2]; exact hltp⟩
    · rw [maybeZero_cache]
      show p ∉ s.cache
      rw [hc]
      exact List.not_mem_nil p
    · intro c' hc' hcid'
      obtain ⟨d, hdm, h1, _, h3⟩ := maybeZero_mem_inv p hc'
      rw [hcs'] at hdm
      rw [h3]
      rcases List.mem_append.mp hdm with hd | hd
      · exact absurd (by rw [← h1, hcid', hcid] : d.cid = c.cid)
          (hmid d (Or.inl hd))
      · rcases List.mem_cons.mp hd with rfl | hd
        · show p.slotIdx ∉ is
          rw [hfr] at hfrnodup
          exact (List.nodup_cons.mp hfrnodup).1
        · exact absurd (by rw [← h1, hcid', hcid] : d.cid = c.cid)
            (hmid d (Or.inr hd))
  · -- zeroed contents
    intro hz
    refine readSlot_maybeZero hz hnd'
      ⟨{ c with freeList := is, inUse := c.inUse + 1, lastRef := now }, ?_, ?_, ?_, ?_⟩
    · rw [hcs']
      exact List.mem_append_right _ (List.mem_cons_self _ _)
    · exact hcid.symm
    · exact hltp
    · exact hcwc.2.2.2

/-! ## alloc: the new-chunk path (spec 4.3 step 3) -/

lemma alloc_new_chunk_path {s : PoolState} {now : Nat}
    (h : WF s) (hc : s.cache = []) (hpop : popFirstFree now s.chunks = none) :
    (s.alloc now).1 = ⟨s.nextCid, 0⟩
    ∧ (s.alloc now).2.meter.inuse.level = s.meter.inuse.level + s.obj_size
    ∧ (s.alloc now).2.meter.idle.level + s.obj_size =
        s.meter.idle.level + s.chunk_capacity * s.obj_size
    ∧ (s.alloc now).2.meter.alloc.level =
        s.meter.alloc.level + s.chunk_capacity * s.obj_size
    ∧ (s.alloc now).2.alloc_calls = s.alloc_calls + 1
    ∧ (s.alloc now).2.saved_calls = s.saved_calls
    ∧ (s.alloc now).2.free_calls = s.free_calls
    ∧ (s.alloc now).2.obj_size = s.obj_size
    ∧ WF (s.alloc now).2
    ∧ ValidFree (s.alloc now).2 (s.alloc now).1
    ∧ (s.doZeroOnPush = true →
        readSlot (s.alloc now).2 (s.alloc now).1 =
          some (List.replicate s.obj_size 0)) := by
  obtain ⟨hobj, hcap, hfresh, hcwf, hma, hmi, hms⟩ := h
  rw [hc] at hcwf hmi
  obtain ⟨hnd, _, _, hcw⟩ := hcwf
  have hall := popFirstFree_none hpop
  have hsf0 : sumFree s.chunks = 0 := sumFree_eq_zero hall
  obtain ⟨k, hk⟩ : ∃ k, s.chunk_capacity = k + 1 :=
    ⟨s.chunk_capacity - 1, by omega⟩
  have hncfree : (newChunk s.nextCid s.chunk_capacity s.obj_size now).freeList =
      0 :: (List.range k).map Nat.succ := by
    show List.range s.chunk_capacity = _
    rw [hk, List.range_succ_eq_map]
  have hpop2 : popFirstFree now [newChunk s.nextCid s.chunk_capacity s.obj_size now] =
      some (⟨s.nextCid, 0⟩,
        [{ newChunk s.nextCid s.chunk_capacity s.obj_size now with
          freeList := (List.range k).map Nat.succ,
          inUse := (newChunk s.nextCid s.chunk_capacity s.obj_size now).inUse + 1,
          lastRef := now }]) := by
    rw [popFirstFree, hncfree]
    rfl
  have heq : s.alloc now = (⟨s.nextCid, 0⟩, maybeZero { s with
      chunks := s.chunks ++
        [{ newChunk s.nextCid s.chunk_capacity s.obj_size now with
          freeList := (List.range k).map Nat.succ,
          inUse := (newChunk s.nextCid s.chunk_capacity s.obj_size now).inUse + 1,
          lastRef := now }],
      nextCid := s.nextCid + 1,
      alloc_calls := s.alloc_calls + 1,
      meter := (s.meter.addChunk (s.chunk_capacity * s.obj_size)).takeIdle
        s.obj_size } ⟨s.nextCid, 0⟩) := by
    unfold PoolState.alloc
    rw [hc, hpop, hpop2]
  have hdelta : s.chunk_capacity * s.obj_size = k * s.obj_size + s.obj_size := by
    rw [hk]
    ring
  have hnc2wf : ChunkWF ([] : List Ptr)
      { newChunk s.nextCid s.chunk_capacity s.obj_size now with
        freeList := (List.range k).map Nat.succ,
        inUse := (newChunk s.nextCid s.chunk_capacity s.obj_size now).inUse + 1,
        lastRef := now } := by
    refine ⟨?_, ?_, ?_, ?_⟩
    · rw [cachedIdxs_nil, List.append_nil]
      exact (List.nodup_range k).map Nat.succ_injective
    · intro i hi
      rw [cachedIdxs_nil, List.append_nil] at hi
      obtain ⟨j, hj, rfl⟩ := List.mem_map.mp hi
      have := List.mem_range.mp hj
      show j + 1 < s.chunk_capacity
      omega
    · show 0 + 1 + ((List.range k).map Nat.succ).length = s.chunk_capacity
      rw [List.length_map, List.length_range]
      omega
    · show (List.replicate s.chunk_capacity
        (List.replicate s.obj_size junkByte)).length = s.chunk_capacity
      rw [List.length_replicate]
  have hmapcid2 : (s.chunks ++
      [{ newChunk s.nextCid s.chunk_capacity s.obj_size now with
        freeList := (List.range k).map Nat.succ,
        inUse := (newChunk s.nextCid s.chunk_capacity s.obj_size now).inUse + 1,
        lastRef := now }]).map MemChunk.cid =
      s.chunks.map MemChunk.cid ++ [s.nextCid] := by
    rw [List.map_append]
    rfl
  have hnd2 : ((s.chunks ++
      [{ newChunk s.nextCid s.chunk_capacity s.obj_size now with
        freeList := (List.range k).map Nat.succ,
        inUse := (newChunk s.nextCid s.chunk_capacity s.obj_size now).inUse + 1,
        lastRef := now }]).map MemChunk.cid).Nodup := by
    rw [hmapcid2]
    refine List.Nodup.append hnd (List.nodup_singleton _) ?_
    intro x hx hx2
    obtain ⟨c, hcm, rfl⟩ := List.mem_map.mp hx
    have hlt := hfresh c hcm
    have : c.cid = s.nextCid := by simpa using hx2
    omega
  have hchunksWF : ChunksWF s.cache (s.chunks ++
      [{ newChunk s.nextCid s.chunk_capacity s.obj_size now with
        freeList := (List.range k).map Nat.succ,
        inUse := (newChunk s.nextCid s.chunk_capacity s.obj_size now).inUse + 1,
        lastRef := now }]) := by
    rw [hc]
    refine ⟨hnd2, List.nodup_nil,
      ⟨fun q hq => absurd hq (List.not_mem_nil q), ?_⟩⟩
    intro d hd
    rcases List.mem_append.mp hd with hd | hd
    · exact hcw d hd
    · rcases List.mem_cons.mp hd with rfl | hd
      · exact hnc2wf
      · cases hd
  have hsumcaps2 : sumCaps (s.chunks ++
      [{ newChunk s.nextCid s.chunk_capacity s.obj_size now with
        freeList := (List.range k).map Nat.succ,
        inUse := (newChunk s.nextCid s.chunk_capacity s.obj_size now).inUse + 1,
        lastRef := now }]) = sumCaps s.chunks + s.chunk_capacity := by
    unfold sumCaps
    rw [List.map_append, List.sum_append]
    rfl
  have hsumfree2 : sumFree (s.chunks ++
      [{ newChunk s.nextCid s.chunk_capacity s.obj_size now with
        freeList := (List.range k).map Nat.succ,
        inUse := (newChunk s.nextCid s.chunk_capacity s.obj_size now).inUse + 1,
        lastRef := now }]) = sumFree s.chunks + k := by
    unfold sumFree
    rw [List.map_append, List.sum_append]
    simp [List.length_map, List.length_range]
  have hfresh2 : ∀ c ∈ s.chunks ++
      [{ newChunk s.nextCid s.chunk_capacity s.obj_size now with
        freeList := (List.range k).map Nat.succ,
        inUse := (newChunk s.nextCid s.chunk_capacity s.obj_size now).inUse + 1,
        lastRef := now }], c.cid < s.nextCid + 1 := by
    intro c hcm
    rcases List.mem_append.mp hcm with hcm | hcm
    · have := hfresh c hcm
      omega
    · rcases List.mem_cons.mp hcm with rfl | hcm
      · show s.nextCid < s.nextCid + 1
        omega
      · cases hcm
  have hmodmem : { newChunk s.nextCid s.chunk_capacity s.obj_size now with
      freeList := (List.range k).map Nat.succ,
      inUse := (newChunk s.nextCid s.chunk_capacity s.obj_size now).inUse + 1,
      lastRef := now } ∈ s.chunks ++
      [{ newChunk s.nextCid s.chunk_capacity s.obj_size now with
        freeList := (List.range k).map Nat.succ,
        inUse := (newChunk s.nextCid s.chunk_capacity s.obj_size now).inUse + 1,
        lastRef := now }] :=
    List.mem_append_right _ (List.mem_cons_self _ _)
  rw [heq]
  have hmz := maybeZero_chunksWF (s := { s with
      chunks := s.chunks ++
        [{ newChunk s.nextCid s.chunk_capacity s.obj_size now with
          freeList := (List.range k).map Nat.succ,
          inUse := (newChunk s.nextCid s.chunk_capacity s.obj_size now).inUse + 1,
          lastRef := now }],
      nextCid := s.nextCid + 1,
      alloc_calls := s.alloc_calls + 1,
      meter := (s.meter.addChunk (s.chunk_capacity * s.obj_size)).takeIdle
        s.obj_size }) ⟨s.nextCid, 0⟩ hchunksWF
  refine ⟨rfl, by rw [maybeZero_meter]; rfl, ?_, by rw [maybeZero_meter]; rfl,
    by rw [maybeZero_alloc_calls], by rw [maybeZero_saved_calls],
    by rw [maybeZero_free_calls], by rw [maybeZero_obj_size],
    ?_, ?_, ?_⟩
  · rw [maybeZero_meter]
    show s.meter.idle.level + s.chunk_capacity * s.obj_size - s.obj_size
      + s.obj_size = s.meter.idle.level + s.chunk_capacity * s.obj_size
    omega
  · -- WF of the post-state
    refine ⟨?_, ?_, ?_, hmz, ?_, ?_, ?_⟩
    · rw [maybeZero_obj_size]
      exact hobj
    · rw [maybeZero_chunk_capacity]
      exact hcap
    · rw [maybeZero_nextCid]
      exact forall_cid_lt_of_map_eq (maybeZero_map_cid _ _) hfresh2
    · rw [maybeZero_meter, maybeZero_sumCaps, maybeZero_obj_size]
      show s.meter.alloc.level + s.chunk_capacity * s.obj_size = _ * s.obj_size
      rw [hsumcaps2, hma]
      ring
    · rw [maybeZero_meter, maybeZero_sumFree, maybeZero_obj_size, maybeZero_cache]
      show s.meter.idle.level + s.chunk_capacity * s.obj_size - s.obj_size =
        (s.cache.length + _) * s.obj_size
      rw [hc, hsumfree2, hmi, hsf0]
      simp only [List.length_nil]
      have e1 : (0 + (0 + k)) * s.obj_size = k * s.obj_size := by ring
      rw [e1]
      simp only [Nat.zero_add, Nat.zero_mul]
      omega
    · rw [maybeZero_meter]
      show s.meter.inuse.level + s.obj_size +
        (s.meter.idle.level + s.chunk_capacity * s.obj_size - s.obj_size) =
        s.meter.alloc.level + s.chunk_capacity * s.obj_size
      have hobjle : s.obj_size ≤ s.chunk_capacity * s.obj_size := by
        omega
      omega
  · -- ValidFree of the returned slot
    refine ⟨?_, ?_, ?_⟩
    · obtain ⟨c', hc', h1, h2, _⟩ := maybeZero_mem_of_mem (t := { s with
        chunks := s.chunks ++
          [{ newChunk s.nextCid s.chunk_capacity s.obj_size now with
            freeList := (List.range k).map Nat.succ,
            inUse := (newChunk s.nextCid s.chunk_capacity s.obj_size now).inUse + 1,
            lastRef := now }],
        nextCid := s.nextCid + 1,
        alloc_calls := s.alloc_calls + 1,
        meter := (s.meter.addChunk (s.chunk_capacity * s.obj_size)).takeIdle
          s.obj_size }) (p := (⟨s.nextCid, 0⟩ : Ptr)) hmodmem
      refine ⟨c', hc', ?_, ?_⟩
      · rw [h1]
        rfl
      · rw [h2]
        show 0 < s.chunk_capacity
        exact hcap
    · rw [maybeZero_cache]
      show (⟨s.nextCid, 0⟩ : Ptr) ∉ s.cache
      rw [hc]
      exact List.not_mem_nil _
    · intro c' hc' hcid'
      obtain ⟨d, hdm, h1, _, h3⟩ := maybeZero_mem_inv _ hc'
      rw [h3]
      rcases List.mem_append.mp hdm with hd | hd
      · have := hfresh d hd
        have hdc : d.cid = s.nextCid := by
          rw [← h1, hcid']
        omega
      · rcases List.mem_cons.mp hd with rfl | hd
        · show (0 : Nat) ∉ (List.range k).map Nat.succ
          intro hmem
          obtain ⟨j, _, hj⟩ := List.mem_map.mp hmem
          exact Nat.succ_ne_zero j hj
        · cases hd
  · -- zeroed contents
    intro hz
    refine readSlot_maybeZero hz hnd2
      ⟨{ newChunk s.nextCid s.chunk_capacity s.obj_size now with
        freeList := (List.range k).map Nat.succ,
        inUse := (newChunk s.nextCid s.chunk_capacity s.obj_size now).inUse + 1,
        lastRef := now }, hmodmem, rfl, hcap, ?_⟩
    show (List.replicate s.chunk_capacity
      (List.replicate s.obj_size junkByte)).length = s.chunk_capacity
    rw [List.length_replicate]

/-! ## clean phase A: draining the cache -/

lemma drainOne_map_cid (cs : List MemChunk) (p : Ptr) :
    (drainOne cs p).map MemChunk.cid = cs.map MemChunk.cid := by
  induction cs with
  | nil => rfl
  | cons c cs ih =>
    simp only [drainOne, List.map_cons] at *
    by_cases h : c.cid = p.chunkId <;> simp [h, ih]

lemma drainOne_map_capacity (cs : List MemChunk) (p : Ptr) :
    (drainOne cs p).map MemChunk.capacity = cs.map MemChunk.capacity := by
  induction cs with
  | nil => rfl
  | cons c cs ih =>
    simp only [drainOne, List.map_cons] at *
    by_cases h : c.cid = p.chunkId <;> simp [h, ih]

lemma mem_drainOne_inv {cs : List MemChunk} {p : Ptr} {c' : MemChunk}
    (h : c' ∈ drainOne cs p) : ∃ c ∈ cs, c'.cid = c.cid := by
  simp only [drainOne, List.mem_map] at h
  obtain ⟨c, hc, rfl⟩ := h
  by_cases hm : c.cid = p.chunkId
  · rw [if_pos hm]
    exact ⟨c, hc, rfl⟩
  · rw [if_neg hm]
    exact ⟨c, hc, rfl⟩

lemma drainOne_sumFree {cs : List MemChunk} {p : Ptr}
    (hnd : (cs.map MemChunk.cid).Nodup)
    (hval : ∃ c ∈ cs, c.cid = p.chunkId) :
    sumFree (drainOne cs p) = sumFree cs + 1 := by
  have hpt : sumFree (drainOne cs p) =
      (cs.map fun c => c.freeList.length +
        (if p.chunkId = c.cid then 1 else 0)).sum := by
    unfold sumFree drainOne
    rw [List.map_map]
    congr 1
    apply List.map_congr_left
    intro c _
    by_cases hm : c.cid = p.chunkId
    · simp only [Function.comp, if_pos hm, if_pos hm.symm]
      simp
    · have hm' : ¬ p.chunkId = c.cid := fun he => hm he.symm
      simp only [Function.comp, if_neg hm, if_neg hm']
      simp
  rw [hpt, sum_map_add_distrib, count_cid_one hnd (by
    obtain ⟨c, hc, hcid⟩ := hval
    exact ⟨c, hc, hcid⟩)]
  rfl

lemma drainOne_chunkWF {cs : List MemChunk} {p : Ptr} {ps : List Ptr}
    (hcw : ∀ c ∈ cs, ChunkWF (p :: ps) c) :
    ∀ c ∈ drainOne cs p, ChunkWF ps c := by
  intro c' hc'
  simp only [drainOne, List.mem_map] at hc'
  obtain ⟨c, hc, rfl⟩ := hc'
  have hcwc := hcw c hc
  by_cases hm : c.cid = p.chunkId
  · rw [if_pos hm]
    have hcached : cachedIdxs c.cid (p :: ps) = p.slotIdx :: cachedIdxs c.cid ps :=
      cachedIdxs_cons_eq _ hm.symm
    have hperm : (c.freeList ++ cachedIdxs c.cid (p :: ps)).Perm
        ((p.slotIdx :: c.freeList) ++ cachedIdxs c.cid ps) := by
      rw [hcached, List.cons_append]
      exact List.perm_middle
    have hcnt := chunk_count_le hcwc
    rw [hcached] at hcnt
    simp only [List.length_cons] at hcnt
    have hinuse1 : 1 ≤ c.inUse := by
      have := hcwc.2.2.1
      omega
    refine ⟨?_, ?_, ?_, hcwc.2.2.2⟩
    · show ((p.slotIdx :: c.freeList) ++ cachedIdxs c.cid ps).Nodup
      exact hperm.nodup hcwc.1
    · intro i hi
      replace hi : i ∈ (p.slotIdx :: c.freeList) ++ cachedIdxs c.cid ps := hi
      apply hcwc.2.1
      exact hperm.mem_iff.mpr hi
    · show c.inUse - 1 + (p.slotIdx :: c.freeList).length = c.capacity
      have := hcwc.2.2.1
      simp only [List.length_cons]
      omega
  · rw [if_neg hm]
    have hcached : cachedIdxs c.cid (p :: ps) = cachedIdxs c.cid ps :=
      cachedIdxs_cons_ne _ (fun he => hm he.symm)
    refine ⟨?_, ?_, hcwc.2.2.1, hcwc.2.2.2⟩
    · have := hcwc.1
      rwa [hcached] at this
    · intro i hi
      apply hcwc.2.1
      rwa [hcached]

lemma drainOne_chunksWF {cs : List MemChunk} {p : Ptr} {ps : List Ptr}
    (h : ChunksWF (p :: ps) cs) : ChunksWF ps (drainOne cs p) := by
  obtain ⟨hnd, hcnd, hval, hcw⟩ := h
  refine ⟨by rw [drainOne_map_cid]; exact hnd, (List.nodup_cons.mp hcnd).2, ?_,
    drainOne_chunkWF hcw⟩
  intro q hq
  obtain ⟨c, hc, hcid⟩ := hval q (List.mem_cons_of_mem _ hq)
  by_cases hm : c.cid = p.chunkId
  · refine ⟨{ c with freeList := p.slotIdx :: c.freeList, inUse := c.inUse - 1 },
      ?_, hcid⟩
    simp only [drainOne, List.mem_map]
    exact ⟨c, hc, by rw [if_pos hm]⟩
  · refine ⟨c, ?_, hcid⟩
    simp only [drainOne, List.mem_map]
    exact ⟨c, hc, by rw [if_neg hm]⟩

lemma drainCache_spec : ∀ {ps : List Ptr} {cs : List MemChunk},
    ChunksWF ps cs →
    (drainCache cs ps).map MemChunk.cid = cs.map MemChunk.cid
    ∧ (drainCache cs ps).map MemChunk.capacity = cs.map MemChunk.capacity
    ∧ sumFree (drainCache cs ps) = ps.length + sumFree cs
    ∧ (∀ c ∈ drainCache cs ps, ChunkWF [] c) := by
  intro ps
  induction ps with
  | nil =>
    intro cs h
    refine ⟨rfl, rfl, ?_, ?_⟩
    · show sumFree cs = ([] : List Ptr).length + sumFree cs
      simp
    · intro c hc
      exact h.2.2.2 c hc
  | cons p ps ih =>
    intro cs h
    have hstep := drainOne_chunksWF h
    have hrec := ih hstep
    have hfree1 : sumFree (drainOne cs p) = sumFree cs + 1 :=
      drainOne_sumFree h.1 (h.2.2.1 p (List.mem_cons_self _ _))
    refine ⟨?_, ?_, ?_, hrec.2.2.2⟩
    · show (drainCache (drainOne cs p) ps).map MemChunk.cid = _
      rw [hrec.1, drainOne_map_cid]
    · show (drainCache (drainOne cs p) ps).map MemChunk.capacity = _
      rw [hrec.2.1, drainOne_map_capacity]
    · show sumFree (drainCache (drainOne cs p) ps) = _
      rw [hrec.2.2.1, hfree1]
      simp only [List.length_cons]
      omega

/-! ## clean phase B: sorting -/

lemma insertChunk_perm (c : MemChunk) (l : List MemChunk) :
    (insertChunk c l).Perm (c :: l) := by
  induction l with
  | nil => exact List.Perm.refl _
  | cons d ds ih =>
    unfold insertChunk
    split
    · exact List.Perm.refl _
    · exact (ih.cons d).trans (List.Perm.swap c d ds)

lemma sortChunks_perm (l : List MemChunk) : (sortChunks l).Perm l := by
  induction l with
  | nil => exact List.Perm.refl _
  | cons c cs ih =>
    exact (insertChunk_perm c _).trans (ih.cons c)

/-! ## clean phase C: reclaiming empty chunks -/

lemma reclaim_spec (objSize lim now age : Nat) :
    ∀ (cs : List MemChunk) (m : MemPoolMeter) (A B : Nat),
    (∀ c ∈ cs, c.inUse + c.freeList.length = c.capacity) →
    m.idle.level = (A + sumFree cs) * objSize →
    m.alloc.level = (B + sumCaps cs) * objSize →
    m.inuse.level + m.idle.level = m.alloc.level →
    List.Sublist (reclaim objSize lim now age cs m).1 cs
    ∧ (reclaim objSize lim now age cs m).2.idle.level =
        (A + sumFree (reclaim objSize lim now age cs m).1) * objSize
    ∧ (reclaim objSize lim now age cs m).2.alloc.level =
        (B + sumCaps (reclaim objSize lim now age cs m).1) * objSize
    ∧ (reclaim objSize lim now age cs m).2.inuse = m.inuse
    ∧ (reclaim objSize lim now age cs m).2.inuse.level +
        (reclaim objSize lim now age cs m).2.idle.level =
        (reclaim objSize lim now age cs m).2.alloc.level := by
  intro cs
  induction cs with
  | nil =>
    intro m A B _ hidle halloc hsum
    exact ⟨List.Sublist.refl _, hidle, halloc, rfl, hsum⟩
  | cons c cs ih =>
    intro m A B hwf hidle halloc hsum
    have hfreecons : sumFree (c :: cs) = c.freeList.length + sumFree cs := by
      unfold sumFree
      simp
    have hcapscons : sumCaps (c :: cs) = c.capacity + sumCaps cs := by
      unfold sumCaps
      simp
    by_cases hcond : c.inUse = 0 ∧ (lim < m.idle.level ∨ age ≤ now - c.lastRef)
    · have hstep : reclaim objSize lim now age (c :: cs) m =
          reclaim objSize lim now age cs (m.removeChunk (c.capacity * objSize)) := by
        simp only [reclaim]
        rw [if_pos hcond]
      have hflc : c.freeList.length = c.capacity := by
        have := hwf c (List.mem_cons_self _ _)
        omega
      have hidle2 : (m.removeChunk (c.capacity * objSize)).idle.level =
          (A + sumFree cs) * objSize := by
        show m.idle.level - c.capacity * objSize = _
        rw [hidle, hfreecons, ← hflc]
        have e1 : (A + (c.freeList.length + sumFree cs)) * objSize =
            (A + sumFree cs) * objSize + c.freeList.length * objSize := by ring
        omega
      have halloc2 : (m.removeChunk (c.capacity * objSize)).alloc.level =
          (B + sumCaps cs) * objSize := by
        show m.alloc.level - c.capacity * objSize = _
        rw [halloc, hcapscons]
        have e1 : (B + (c.capacity + sumCaps cs)) * objSize =
            (B + sumCaps cs) * objSize + c.capacity * objSize := by ring
        omega
      have hsum2 : (m.removeChunk (c.capacity * objSize)).inuse.level +
          (m.removeChunk (c.capacity * objSize)).idle.level =
          (m.removeChunk (c.capacity * objSize)).alloc.level := by
        show m.inuse.level + (m.idle.level - c.capacity * objSize) =
          m.alloc.level - c.capacity * objSize
        have hle1 : c.capacity * objSize ≤ m.idle.level := by
          rw [hidle, hfreecons, ← hflc]
          have e1 : (A + (c.freeList.length + sumFree cs)) * objSize =
              (A + sumFree cs) * objSize + c.freeList.length * objSize := by ring
          omega
        omega
      have hrec := ih (m.removeChunk (c.capacity * objSize)) A B
        (fun d hd => hwf d (List.mem_cons_of_mem _ hd)) hidle2 halloc2 hsum2
      rw [hstep]
      exact ⟨hrec.1.trans (List.sublist_cons_self _ _), hrec.2.1, hrec.2.2.1,
        hrec.2.2.2.1, hrec.2.2.2.2⟩
    · have hstep : reclaim objSize lim now age (c :: cs) m =
          ((reclaim objSize lim now age cs m).1.cons c,
            (reclaim objSize lim now age cs m).2) := by
        simp only [reclaim]
        rw [if_neg hcond]
      have hidle2 : m.idle.level = ((A + c.freeList.length) + sumFree cs) * objSize := by
        rw [hidle, hfreecons]
        ring
      have halloc2 : m.alloc.level = ((B + c.capacity) + sumCaps cs) * objSize := by
        rw [halloc, hcapscons]
        ring
      have hrec := ih m (A + c.freeList.length) (B + c.capacity)
        (fun d hd => hwf d (List.mem_cons_of_mem _ hd)) hidle2 halloc2 hsum
      rw [hstep]
      refine ⟨hrec.1.cons₂ c, ?_, ?_, hrec.2.2.2.1, hrec.2.2.2.2⟩
      · show (reclaim objSize lim now age cs m).2.idle.level =
          (A + sumFree (c :: (reclaim objSize lim now age cs m).1)) * objSize
        rw [hrec.2.1]
        have : sumFree (c :: (reclaim objSize lim now age cs m).1) =
            c.freeList.length + sumFree (reclaim objSize lim now age cs m).1 := by
          unfold sumFree
          simp
        rw [this]
        ring
      · show (reclaim objSize lim now age cs m).2.alloc.level =
          (B + sumCaps (c :: (reclaim objSize lim now age cs m).1)) * objSize
        rw [hrec.2.2.1]
        have : sumCaps (c :: (reclaim objSize lim now age cs m).1) =
            c.capacity + sumCaps (reclaim objSize lim now age cs m).1 := by
          unfold sumCaps
          simp
        rw [this]
        ring

/-! ## clean: preservation -/

lemma clean_WF {s : PoolState} (h : WF s) (lim now age : Nat) :
    WF (s.clean lim now age) := by
  obtain ⟨hobj, hcap, hfresh, hcwf, hma, hmi, hms⟩ := h
  have hdr := drainCache_spec hcwf
  have hperm := sortChunks_perm (drainCache s.chunks s.cache)
  have hpermcid := hperm.map MemChunk.cid
  have hpermcap := hperm.map MemChunk.capacity
  have hpermfree := hperm.map (fun c => c.freeList.length)
  have hsortcid : ((sortChunks (drainCache s.chunks s.cache)).map MemChunk.cid).Perm
      (s.chunks.map MemChunk.cid) := by
    rw [← hdr.1]
    exact hpermcid
  have hsortcaps : sumCaps (sortChunks (drainCache s.chunks s.cache)) =
      sumCaps s.chunks := by
    unfold sumCaps
    rw [hpermcap.sum_eq]
    show ((drainCache s.chunks s.cache).map MemChunk.capacity).sum = _
    rw [hdr.2.1]
  have hsortfree : sumFree (sortChunks (drainCache s.chunks s.cache)) =
      s.cache.length + sumFree s.chunks := by
    unfold sumFree
    rw [hpermfree.sum_eq]
    exact hdr.2.2.1
  have hsortwf : ∀ c ∈ sortChunks (drainCache s.chunks s.cache), ChunkWF [] c := by
    intro c hc
    exact hdr.2.2.2 c (hperm.mem_iff.mp hc)
  have hwfin : ∀ c ∈ sortChunks (drainCache s.chunks s.cache),
      c.inUse + c.freeList.length = c.capacity := by
    intro c hc
    exact (hsortwf c hc).2.2.1
  have hidle0 : s.meter.idle.level =
      (0 + sumFree (sortChunks (drainCache s.chunks s.cache))) * s.obj_size := by
    rw [hsortfree, hmi]
    ring_nf
  have halloc0 : s.meter.alloc.level =
      (0 + sumCaps (sortChunks (drainCache s.chunks s.cache))) * s.obj_size := by
    rw [hsortcaps, hma]
    ring_nf
  have hrc := reclaim_spec s.obj_size lim now age
    (sortChunks (drainCache s.chunks s.cache)) s.meter 0 0 hwfin hidle0 halloc0 hms
  refine ⟨hobj, hcap, ?_, ⟨?_, List.nodup_nil,
    ⟨fun q hq => absurd hq (List.not_mem_nil q), ?_⟩⟩, ?_, ?_, ?_⟩
  · -- freshness
    intro c hc
    have hc2 := hrc.1.mem hc
    have : c.cid ∈ s.chunks.map MemChunk.cid := by
      rw [← hsortcid.mem_iff]
      exact List.mem_map.mpr ⟨c, hc2, rfl⟩
    obtain ⟨d, hd, hdc⟩ := List.mem_map.mp this
    rw [← hdc]
    exact hfresh d hd
  · -- cid nodup
    apply List.Nodup.sublist (hrc.1.map MemChunk.cid)
    exact hsortcid.nodup_iff.mpr hcwf.1
  · -- per-chunk invariant
    intro c hc
    exact hsortwf c (hrc.1.mem hc)
  · -- alloc meter
    show (reclaim s.obj_size lim now age
        (sortChunks (drainCache s.chunks s.cache)) s.meter).2.alloc.level =
      sumCaps (reclaim s.obj_size lim now age
        (sortChunks (drainCache s.chunks s.cache)) s.meter).1 * s.obj_size
    rw [hrc.2.2.1]
    ring
  · -- idle meter
    show (reclaim s.obj_size lim now age
        (sortChunks (drainCache s.chunks s.cache)) s.meter).2.idle.level =
      (([] : List Ptr).length + sumFree (reclaim s.obj_size lim now age
        (sortChunks (drainCache s.chunks s.cache)) s.meter).1) * s.obj_size
    rw [hrc.2.1]
    simp
  · -- sum identity
    exact hrc.2.2.2.2

/-! ## The remaining operations -/

lemma MeterInv_of_WF {s : PoolState} (h : WF s) : MeterInv s :=
  h.2.2.2.2.2.2

lemma chunkCapacity_pos (t o : Nat) : 0 < chunkCapacity t o := by
  have h1 : MEM_MIN_FREE ≤ min MEM_MAX_FREE (max MEM_MIN_FREE (t / o)) :=
    le_min (by norm_num [MEM_MIN_FREE, MEM_MAX_FREE]) (le_max_left _ _)
  unfold chunkCapacity
  have : (0 : Nat) < MEM_MIN_FREE := by norm_num [MEM_MIN_FREE]
  omega

lemma setChunkSize_WF {s : PoolState} (h : WF s) (b : Nat) :
    WF (s.setChunkSize b) := by
  obtain ⟨hobj, _, hfresh, hcwf, hma, hmi, hms⟩ := h
  exact ⟨hobj, chunkCapacity_pos _ _, hfresh, hcwf, hma, hmi, hms⟩

lemma flushMeters_WF {s : PoolState} (h : WF s) : WF s.flushMeters := by
  obtain ⟨hobj, hcap, hfresh, hcwf, hma, hmi, hms⟩ := h
  exact ⟨hobj, hcap, hfresh, hcwf, hma, hmi, hms⟩

lemma getStats_state_eq (s : PoolState) : (s.getStats).2.2 = s := rfl

lemma free_meter_levels (s : PoolState) (p : Ptr) :
    (s.free p).meter.inuse.level = s.meter.inuse.level - s.obj_size
    ∧ (s.free p).meter.idle.level = s.meter.idle.level + s.obj_size
    ∧ (s.free p).meter.alloc.level = s.meter.alloc.level
    ∧ (s.free p).free_calls = s.free_calls + 1
    ∧ (s.free p).alloc_calls = s.alloc_calls
    ∧ (s.free p).saved_calls = s.saved_calls := by
  refine ⟨rfl, rfl, rfl, rfl, rfl, rfl⟩

/-! ## Claims -/

/-- C1: for every pool, after every public pool operation (alloc, free,
    get_stats, setChunkSize, clean, flushMeters) returns, the meter
    identity P.meter.inuse + P.meter.idle == P.meter.alloc holds. -/
theorem C1_meter_identity (s : PoolState) (p : Ptr) (now b lim t age : Nat)
    (h : WF s) :
    MeterInv (s.alloc now).2
    ∧ (ValidFree s p → MeterInv (s.free p))
    ∧ MeterInv (s.getStats).2.2
    ∧ MeterInv (s.setChunkSize b)
    ∧ MeterInv (s.clean lim t age)
    ∧ MeterInv s.flushMeters := by
  refine ⟨?_, ?_, ?_, ?_, ?_, ?_⟩
  · cases hc : s.cache with
    | cons q rest =>
      exact MeterInv_of_WF (alloc_cache_path h hc now).2.2.2.2.2.2.2.2.1
    | nil =>
      cases hpop : popFirstFree now s.chunks with
      | some pr =>
        obtain ⟨q, cs⟩ := pr
        exact MeterInv_of_WF (alloc_chunk_path h hc hpop).2.2.2.2.2.2.2.2.1
      | none =>
        exact MeterInv_of_WF (alloc_new_chunk_path h hc hpop).2.2.2.2.2.2.2.2.1
  · intro hv
    exact MeterInv_of_WF (free_WF h hv)
  · exact MeterInv_of_WF h
  · exact MeterInv_of_WF (setChunkSize_WF h b)
  · exact MeterInv_of_WF (clean_WF h lim t age)
  · exact MeterInv_of_WF (flushMeters_WF h)

/-- C2: for every requested size r, the rounded object size
    (MemAllocator::RoundedSize and the objectSize() of a pool created with
    that request) equals max(pointer_size, round_up(r, pointer_size)) and
    is at least the pointer size; in particular a request of 17 on a
    64-bit build rounds to 24. -/
theorem C2_rounded_size (label : String) (r : Nat) (h1 : 0 < r)
    (h2 : r ≤ MEM_CHUNK_MAX_SIZE) :
    RoundedSize r = max pointerSize (roundUp r pointerSize)
    ∧ pointerSize ≤ RoundedSize r
    ∧ create label r = some (freshPool label r)
    ∧ (freshPool label r).obj_size = RoundedSize r
    ∧ RoundedSize 17 = 24 := by
  refine ⟨rfl, le_max_left _ _, ?_, rfl, by decide⟩
  unfold create
  rw [if_neg]
  intro hcon
  rcases hcon with hcon | hcon
  · omega
  · omega

/-- C3 (counterexample): a pool created for a 16384-byte object is
    accepted, gets the minimum capacity of 32 slots, and its
    capacity x object_size = 524288 exceeds the claimed 262144 bound. -/
theorem C3_capacity_counterexample :
    create "Y" 16384 = some (freshPool "Y" 16384)
    ∧ (freshPool "Y" 16384).obj_size = 16384
    ∧ (freshPool "Y" 16384).chunk_capacity = 32
    ∧ ¬ ((freshPool "Y" 16384).chunk_capacity * (freshPool "Y" 16384).obj_size
        ≤ MEM_CHUNK_MAX_SIZE) := by
  refine ⟨by decide, by decide, by decide, by decide⟩

/-- C3 (amended): for every chunked pool the chunk capacity equals
    clamp(target / object_size, 32, 65535) with the default target
    MEM_CHUNK_SIZE = 16384, and satisfies 32 <= capacity <= 65535; the
    byte bound capacity x object_size <= 262144 holds whenever
    object_size <= 8192 (it fails for larger objects, where the lower
    clamp to 32 slots dominates). -/
theorem C3_chunk_capacity (t o r : Nat) (label : String) (s : PoolState)
    (hcr : create label r = some s) :
    MEM_MIN_FREE ≤ chunkCapacity t o
    ∧ chunkCapacity t o ≤ MEM_MAX_FREE
    ∧ (o ≤ 8192 → t ≤ MEM_CHUNK_MAX_SIZE →
        chunkCapacity t o * o ≤ MEM_CHUNK_MAX_SIZE)
    ∧ s.chunk_capacity = chunkCapacity MEM_CHUNK_SIZE s.obj_size
    ∧ MEM_MIN_FREE ≤ s.chunk_capacity
    ∧ s.chunk_capacity ≤ MEM_MAX_FREE := by
  have hlow : ∀ a b : Nat, MEM_MIN_FREE ≤ chunkCapacity a b := by
    intro a b
    exact le_min (by norm_num [MEM_MIN_FREE, MEM_MAX_FREE]) (le_max_left _ _)
  have hhigh : ∀ a b : Nat, chunkCapacity a b ≤ MEM_MAX_FREE := by
    intro a b
    exact min_le_left _ _
  have hprod : o ≤ 8192 → t ≤ MEM_CHUNK_MAX_SIZE →
      chunkCapacity t o * o ≤ MEM_CHUNK_MAX_SIZE := by
    intro ho ht
    by_cases hq : t / o < MEM_MIN_FREE
    · have hmax : max MEM_MIN_FREE (t / o) = MEM_MIN_FREE :=
        max_eq_left (le_of_lt hq)
      have hcapeq : chunkCapacity t o = MEM_MIN_FREE := by
        unfold chunkCapacity
        rw [hmax]
        exact min_eq_right (by norm_num [MEM_MIN_FREE, MEM_MAX_FREE])
      rw [hcapeq]
      show MEM_MIN_FREE * o ≤ MEM_CHUNK_MAX_SIZE
      rw [show MEM_MIN_FREE = 32 from rfl,
        show MEM_CHUNK_MAX_SIZE = 262144 from rfl]
      omega
    · have hmax : max MEM_MIN_FREE (t / o) = t / o :=
        max_eq_right (by omega)
      have hcaple : chunkCapacity t o ≤ t / o := by
        unfold chunkCapacity
        rw [hmax]
        exact min_le_right _ _
      calc chunkCapacity t o * o ≤ t / o * o := Nat.mul_le_mul_right _ hcaple
      _ ≤ t := Nat.div_mul_le_self t o
      _ ≤ MEM_CHUNK_MAX_SIZE := ht
  have hs : s = freshPool label r := by
    unfold create at hcr
    split at hcr
    · cases hcr
    · injection hcr with hcr
      exact hcr.symm
  refine ⟨hlow t o, hhigh t o, hprod, ?_, ?_, ?_⟩
  · rw [hs]
    rfl
  · rw [hs]
    exact hlow _ _
  · rw [hs]
    exact hhigh _ _

/-- C4: for every well-formed pool whose zero-on-allocation flag is set,
    the slot returned by alloc() reads back as object_size zero bytes at
    the moment alloc() returns. -/
theorem C4_zero_on_alloc (s : PoolState) (now : Nat) (h : WF s)
    (hz : s.doZeroOnPush = true) :
    readSlot (s.alloc now).2 (s.alloc now).1 =
      some (List.replicate s.obj_size 0) := by
  cases hc : s.cache with
  | cons q rest =>
    exact (alloc_cache_path h hc now).2.2.2.2.2.2.2.2.2.2 hz
  | nil =>
    cases hpop : popFirstFree now s.chunks with
    | some pr =>
      obtain ⟨q, cs⟩ := pr
      exact (alloc_chunk_path h hc hpop).2.2.2.2.2.2.2.2.2.2 hz
    | none =>
      exact (alloc_new_chunk_path h hc hpop).2.2.2.2.2.2.2.2.2.2 hz

/-- C5: for every label and every requested size that is zero or strictly
    greater than MEM_CHUNK_MAX_SIZE = 262144, MemPools::create rejects the
    request before any allocation; in particular create("Huge", 500000) is
    rejected. -/
theorem C5_create_rejects (label : String) (r : Nat)
    (h : r = 0 ∨ MEM_CHUNK_MAX_SIZE < r) :
    create label r = none := by
  unfold create
  rw [if_pos h]

/-- A small concrete pool: create("X", 500) rounds to 504-byte objects
    with 32-slot chunks. -/
def poolX : PoolState := freshPool "X" 500

/-- poolX after one allocation. -/
def s1X : PoolState := (poolX.alloc 0).2

/-- The slot handed out by that allocation. -/
def p1X : Ptr := (poolX.alloc 0).1

/-- s1X after freeing the slot again: its cache holds exactly p1X. -/
def s2X : PoolState := s1X.free p1X

/-- C6 (counterexample): on a pool whose cache is non-empty (here s2X,
    holding the freed slot p1X), the pair alloc(); free(p) leaves
    alloc_calls unchanged - the allocation is served from the cache and
    increments saved_calls instead - refuting the claim that alloc_calls
    is incremented by exactly one. -/
theorem C6_counterexample :
    s2X.cache ≠ []
    ∧ (((s2X.alloc 1).2.free (s2X.alloc 1).1).free_calls = s2X.free_calls + 1)
    ∧ ¬ (((s2X.alloc 1).2.free (s2X.alloc 1).1).alloc_calls = s2X.alloc_calls + 1)
    ∧ (((s2X.alloc 1).2.free (s2X.alloc 1).1).saved_calls = s2X.saved_calls + 1) := by
  refine ⟨by decide, by decide, by decide, by decide⟩

/-- C6 (amended): alloc(); free(p) increments free_calls by one and
    restores the inuse level and the inuse + idle = alloc identity.  It
    increments alloc_calls by one only when the pool cache was empty; on a
    cache hit saved_calls is incremented instead.  The idle and alloc
    levels return to their pre-call values unless the allocation had to
    create a chunk, in which case both grow by chunk_capacity x
    object_size. -/
theorem C6_alloc_free_roundtrip (s : PoolState) (now : Nat) (h : WF s) :
    ((s.alloc now).2.free (s.alloc now).1).free_calls = s.free_calls + 1
    ∧ ((s.alloc now).2.free (s.alloc now).1).meter.inuse.level =
        s.meter.inuse.level
    ∧ MeterInv ((s.alloc now).2.free (s.alloc now).1)
    ∧ (s.cache ≠ [] →
        ((s.alloc now).2.free (s.alloc now).1).saved_calls = s.saved_calls + 1
        ∧ ((s.alloc now).2.free (s.alloc now).1).alloc_calls = s.alloc_calls
        ∧ ((s.alloc now).2.free (s.alloc now).1).meter.idle.level =
            s.meter.idle.level
        ∧ ((s.alloc now).2.free (s.alloc now).1).meter.alloc.level =
            s.meter.alloc.level)
    ∧ (s.cache = [] →
        ((s.alloc now).2.free (s.alloc now).1).alloc_calls = s.alloc_calls + 1
        ∧ ((s.alloc now).2.free (s.alloc now).1).saved_calls = s.saved_calls
        ∧ (∀ q cs, popFirstFree now s.chunks = some (q, cs) →
            ((s.alloc now).2.free (s.alloc now).1).meter.idle.level =
              s.meter.idle.level
            ∧ ((s.alloc now).2.free (s.alloc now).1).meter.alloc.level =
              s.meter.alloc.level)
        ∧ (popFirstFree now s.chunks = none →
            ((s.alloc now).2.free (s.alloc now).1).meter.idle.level =
              s.meter.idle.level + s.chunk_capacity * s.obj_size
            ∧ ((s.alloc now).2.free (s.alloc now).1).meter.alloc.level =
              s.meter.alloc.level + s.chunk_capacity * s.obj_size)) := by
  have hfml := free_meter_levels (s.alloc now).2 (s.alloc now).1
  cases hc : s.cache with
  | cons q rest =>
    obtain ⟨_, hinuse, hidle, halloc, hac, hsc, hfc, hobj, hwf, hv, _⟩ :=
      alloc_cache_path h hc now
    have hWFpost := free_WF hwf hv
    refine ⟨?_, ?_, MeterInv_of_WF hWFpost, ?_, ?_⟩
    · rw [hfml.2.2.2.1, hfc]
    · rw [hfml.1, hobj, hinuse]
      omega
    · intro _
      refine ⟨?_, ?_, ?_, ?_⟩
      · rw [hfml.2.2.2.2.2, hsc]
      · rw [hfml.2.2.2.2.1, hac]
      · rw [hfml.2.1, hobj, ← hidle]
      · rw [hfml.2.2.1, halloc]
    · intro hnil
      simp at hnil
  | nil =>
    cases hpop : popFirstFree now s.chunks with
    | some pr =>
      obtain ⟨q, cs⟩ := pr
      obtain ⟨_, hinuse, hidle, halloc, hac, hsc, hfc, hobj, hwf, hv, _⟩ :=
        alloc_chunk_path h hc hpop
      have hWFpost := free_WF hwf hv
      refine ⟨?_, ?_, MeterInv_of_WF hWFpost, ?_, ?_⟩
      · rw [hfml.2.2.2.1, hfc]
      · rw [hfml.1, hobj, hinuse]
        omega
      · intro hne
        exact absurd rfl hne
      · intro _
        refine ⟨?_, ?_, ?_, ?_⟩
        · rw [hfml.2.2.2.2.1, hac]
        · rw [hfml.2.2.2.2.2, hsc]
        · intro q' cs' hpop'
          constructor
          · rw [hfml.2.1, hobj, ← hidle]
          · rw [hfml.2.2.1, halloc]
        · intro hnone
          cases hnone
    | none =>
      obtain ⟨_, hinuse, hidle, halloc, hac, hsc, hfc, hobj, hwf, hv, _⟩ :=
        alloc_new_chunk_path h hc hpop
      have hWFpost := free_WF hwf hv
      refine ⟨?_, ?_, MeterInv_of_WF hWFpost, ?_, ?_⟩
      · rw [hfml.2.2.2.1, hfc]
      · rw [hfml.1, hobj, hinuse]
        omega
      · intro hne
        exact absurd rfl hne
      · intro _
        refine ⟨?_, ?_, ?_, ?_⟩
        · rw [hfml.2.2.2.2.1, hac]
        · rw [hfml.2.2.2.2.2, hsc]
        · intro q' cs' hpop'
          cases hpop'
        · intro _
          constructor
          · rw [hfml.2.1, hobj]
            omega
          · rw [hfml.2.2.1, halloc]

/-- C7: the pool cache is LIFO: with no intervening clean, the sequence
    alloc p1; alloc p2; free(p1); alloc p3 returns p3 == p1 - the most
    recently freed slot is the one handed out by the next alloc. -/
theorem C7_cache_lifo (s : PoolState) (n1 n2 n3 : Nat) :
    ((((s.alloc n1).2.alloc n2).2.free (s.alloc n1).1).alloc n3).1 =
      (s.alloc n1).1 :=
  rfl

/-- C8 (counterexample): mem_unlimited_size = 2^31 = 2147483648 strictly
    exceeds the largest value of the 32-bit signed `int` field
    MemPools::mem_idle_limit (MemPool.h:174), so the 2 GiB default is not
    exactly representable there. -/
theorem C8_counterexample : ¬ ((mem_unlimited_size : Int) ≤ cIntMax) := by
  decide

/-- C8 (amended): the compiled ceilings and defaults equal the specified
    values - page size 4096, default chunk size 16384, maximum chunk size
    262144, slot bounds 32 and 65535, and a 2 GiB default idle limit - but
    that 2 GiB value overflows the `int`-typed mem_idle_limit registry
    field instead of being exactly representable in it. -/
theorem C8_constants :
    MEM_PAGE_SIZE = 4096
    ∧ MEM_CHUNK_SIZE = 16384
    ∧ MEM_CHUNK_MAX_SIZE = 262144
    ∧ MEM_MIN_FREE = 32
    ∧ MEM_MAX_FREE = 65535
    ∧ mem_unlimited_size = 2 * 1024 * 1024 * 1024
    ∧ cIntMax < (mem_unlimited_size : Int) := by
  refine ⟨rfl, rfl, rfl, rfl, rfl, rfl, by decide⟩

/-- C9: getStats fills the statistics record and returns the in-use count
    without mutating any observable pool state, so two back-to-back calls
    return identical results. -/
theorem C9_getStats_pure (s : PoolState) :
    (s.getStats).2.2 = s
    ∧ ((s.getStats).2.2.getStats).1 = (s.getStats).1
    ∧ ((s.getStats).2.2.getStats).2.1 = (s.getStats).2.1 :=
  ⟨rfl, rfl, rfl⟩

/-- C10: the operator new generated by MEMPROXY_CLASS_INLINE (as
    instantiated by StoreMetaRangeLength and StoreMetaRangeOffset) asserts
    byteCount == sizeof(CLASS): when the requested byte count equals the
    class size the call forwards to the class's pool proxy, and any other
    byte count fails the assertion instead of allocating. -/
theorem C10_memproxy_new (px : MemAllocatorProxy)
    (sizeofClass byteCount now : Nat) :
    (byteCount = sizeofClass →
      memproxyOperatorNew px sizeofClass byteCount now =
        MemAllocatorProxy.alloc px now)
    ∧ (byteCount ≠ sizeofClass →
      memproxyOperatorNew px sizeofClass byteCount now = none) := by
  constructor
  · intro hb
    unfold memproxyOperatorNew
    rw [if_pos hb]
  · intro hb
    unfold memproxyOperatorNew
    rw [if_neg hb]

/-! ## Witnesses -/

theorem C1_witness :
    WF s1X
    ∧ (MeterInv (s1X.alloc 0).2
      ∧ (ValidFree s1X p1X → MeterInv (s1X.free p1X))
      ∧ MeterInv (s1X.getStats).2.2
      ∧ MeterInv (s1X.setChunkSize 0)
      ∧ MeterInv (s1X.clean 0 0 0)
      ∧ MeterInv s1X.flushMeters) :=
  ⟨by decide, C1_meter_identity s1X p1X 0 0 0 0 0 (by decide)⟩

theorem C2_witness :
    (0 < 17 ∧ 17 ≤ MEM_CHUNK_MAX_SIZE)
    ∧ (RoundedSize 17 = max pointerSize (roundUp 17 pointerSize)
      ∧ pointerSize ≤ RoundedSize 17
      ∧ create "X" 17 = some (freshPool "X" 17)
      ∧ (freshPool "X" 17).obj_size = RoundedSize 17
      ∧ RoundedSize 17 = 24) :=
  ⟨⟨by decide, by decide⟩, C2_rounded_size "X" 17 (by decide) (by decide)⟩

theorem C3_witness :
    create "X" 17 = some (freshPool "X" 17)
    ∧ (MEM_MIN_FREE ≤ chunkCapacity 16384 24
      ∧ chunkCapacity 16384 24 ≤ MEM_MAX_FREE
      ∧ (24 ≤ 8192 → 16384 ≤ MEM_CHUNK_MAX_SIZE →
          chunkCapacity 16384 24 * 24 ≤ MEM_CHUNK_MAX_SIZE)
      ∧ (freshPool "X" 17).chunk_capacity =
          chunkCapacity MEM_CHUNK_SIZE (freshPool "X" 17).obj_size
      ∧ MEM_MIN_FREE ≤ (freshPool "X" 17).chunk_capacity
      ∧ (freshPool "X" 17).chunk_capacity ≤ MEM_MAX_FREE) :=
  ⟨by decide, C3_chunk_capacity 16384 24 17 "X" (freshPool "X" 17) (by decide)⟩

theorem C4_witness :
    (WF poolX ∧ poolX.doZeroOnPush = true)
    ∧ readSlot (poolX.alloc 7).2 (poolX.alloc 7).1 =
        some (List.replicate poolX.obj_size 0) :=
  ⟨⟨by decide, by decide⟩, C4_zero_on_alloc poolX 7 (by decide) (by decide)⟩

theorem C5_witness :
    (500000 = 0 ∨ MEM_CHUNK_MAX_SIZE < 500000)
    ∧ create "Huge" 500000 = none :=
  ⟨Or.inr (by decide), C5_create_rejects "Huge" 500000 (Or.inr (by decide))⟩

theorem C6_witness :
    WF s2X
    ∧ (((s2X.alloc 3).2.free (s2X.alloc 3).1).free_calls = s2X.free_calls + 1
      ∧ ((s2X.alloc 3).2.free (s2X.alloc 3).1).meter.inuse.level =
          s2X.meter.inuse.level
      ∧ MeterInv ((s2X.alloc 3).2.free (s2X.alloc 3).1)
      ∧ (s2X.cache ≠ [] →
          ((s2X.alloc 3).2.free (s2X.alloc 3).1).saved_calls = s2X.saved_calls + 1
          ∧ ((s2X.alloc 3).2.free (s2X.alloc 3).1).alloc_calls = s2X.alloc_calls
          ∧ ((s2X.alloc 3).2.free (s2X.alloc 3).1).meter.idle.level =
              s2X.meter.idle.level
          ∧ ((s2X.alloc 3).2.free (s2X.alloc 3).1).meter.alloc.level =
              s2X.meter.alloc.level)
      ∧ (s2X.cache = [] →
          ((s2X.alloc 3).2.free (s2X.alloc 3).1).alloc_calls = s2X.alloc_calls + 1
          ∧ ((s2X.alloc 3).2.free (s2X.alloc 3).1).saved_calls = s2X.saved_calls
          ∧ (∀ q cs, popFirstFree 3 s2X.chunks = some (q, cs) →
              ((s2X.alloc 3).2.free (s2X.alloc 3).1).meter.idle.level =
                s2X.meter.idle.level
              ∧ ((s2X.alloc 3).2.free (s2X.alloc 3).1).meter.alloc.level =
                s2X.meter.alloc.level)
          ∧ (popFirstFree 3 s2X.chunks = none →
              ((s2X.alloc 3).2.free (s2X.alloc 3).1).meter.idle.level =
                s2X.meter.idle.level + s2X.chunk_capacity * s2X.obj_size
              ∧ ((s2X.alloc 3).2.free (s2X.alloc 3).1).meter.alloc.level =
                s2X.meter.alloc.level + s2X.chunk_capacity * s2X.obj_size))) :=
  ⟨by decide, C6_alloc_free_roundtrip s2X 3 (by decide)⟩

/-- The class pool proxy of StoreMetaRangeLength (label and a concrete
    16-byte class size), initially unbound. -/
def proxyRangeLength : MemAllocatorProxy :=
  { label := "StoreMetaRangeLength", size := 16, theAllocator := none }

theorem C10_witness :
    ((16 : Nat) = 16
      ∧ memproxyOperatorNew proxyRangeLength 16 16 0 =
          MemAllocatorProxy.alloc proxyRangeLength 0)
    ∧ ((24 : Nat) ≠ 16
      ∧ memproxyOperatorNew proxyRangeLength 16 24 0 = none) :=
  ⟨⟨rfl, (C10_memproxy_new proxyRangeLength 16 16 0).1 rfl⟩,
    ⟨by decide, (C10_memproxy_new proxyRangeLength 16 24 0).2 (by decide)⟩⟩

end MemPool
